import Mathlib

/-!
ZoomHandle (src/tracks/ui/ZoomHandle.cpp)

A shallow embedding of the zoom gesture handler: the gesture state
(`mZoomStart`, `mZoomEnd`, `mRect`), its transitions `Click`, `Drag`, `Release`,
`Cancel`, the classifier `IsDragZooming`, and the viewport arithmetic that
`Release` performs on the shared `ViewInfo`.

Conventions of the embedding.
* C++ `int` pixel coordinates are `ℤ`.  Signed overflow is undefined in C++, so
  the development speaks about coordinates whose sums and differences are
  representable, which is the case for every screen coordinate.
* C++ `double` values have two readings.  `ViewInfo`, `PositionToTime`,
  `dragDivisor`, `zoomMultiplier` and `Release` take them as rationals `ℚ`: this
  is the arithmetic taken exactly, the reading of the statements that say so.
  `Double` is IEEE 754 binary64 with round to nearest, ties to even, every
  operation rounding its exact result once, and `Binary64.ViewInfo.PositionToTime`,
  `Binary64.dragDivisor`, `Binary64.zoomMultiplier` repeat the arithmetic of
  `Release` up to the call of `ZoomBy` operation by operation in that type: this
  is what the program computes.
* A member function that mutates `*this` (and the `ViewInfo` of the project)
  becomes a function returning the new values together with the result code.
-/

namespace Audacity

/-! ## Collaborators -/

/-- The pixel rectangle `wxRect` (wx/gdicmn.h): position and size. -/
structure wxRect where
  x : ℤ
  y : ℤ
  width : ℤ
  height : ℤ
deriving DecidableEq, Repr

/-- Left edge `wxRect::GetLeft()`: the `x` coordinate. -/
def wxRect.GetLeft (r : wxRect) : ℤ := r.x

/-- Right edge `wxRect::GetRight()`: the last pixel column, `x + width - 1`. -/
def wxRect.GetRight (r : wxRect) : ℤ := r.x + r.width - 1

/-- The event types a `wxMouseEvent` can carry (wx/event.h). -/
inductive wxMouseEventType where
  | LEFT_DOWN | LEFT_UP | LEFT_DCLICK
  | MIDDLE_DOWN | MIDDLE_UP | MIDDLE_DCLICK
  | RIGHT_DOWN | RIGHT_UP | RIGHT_DCLICK
  | AUX1_DOWN | AUX1_UP | AUX1_DCLICK
  | AUX2_DOWN | AUX2_UP | AUX2_DCLICK
  | MOTION | ENTER_WINDOW | LEAVE_WINDOW | MOUSEWHEEL | MAGNIFY
deriving DecidableEq, Repr

/-- The part of `wxMouseEvent` the handler reads: the event type, the pixel
column `m_x` and the shift modifier. -/
structure wxMouseEvent where
  type : wxMouseEventType
  m_x : ℤ
  shiftDown : Bool
deriving DecidableEq, Repr

namespace wxMouseEvent

/-- Any button pressed: `wxMouseEvent::ButtonDown()` with its default argument
`wxMOUSE_BTN_ANY`. -/
def ButtonDown (e : wxMouseEvent) : Bool :=
  match e.type with
  | .LEFT_DOWN | .MIDDLE_DOWN | .RIGHT_DOWN | .AUX1_DOWN | .AUX2_DOWN => true
  | _ => false

/-- Left double-click: `wxMouseEvent::LeftDClick()`. -/
def LeftDClick (e : wxMouseEvent) : Bool := decide (e.type = .LEFT_DCLICK)

/-- Right button released: `wxMouseEvent::RightUp()`. -/
def RightUp (e : wxMouseEvent) : Bool := decide (e.type = .RIGHT_UP)

/-- Right double-click: `wxMouseEvent::RightDClick()`. -/
def RightDClick (e : wxMouseEvent) : Bool := decide (e.type = .RIGHT_DCLICK)

/-- Middle button released: `wxMouseEvent::MiddleUp()`. -/
def MiddleUp (e : wxMouseEvent) : Bool := decide (e.type = .MIDDLE_UP)

/-- Middle double-click: `wxMouseEvent::MiddleDClick()`. -/
def MiddleDClick (e : wxMouseEvent) : Bool := decide (e.type = .MIDDLE_DCLICK)

/-- Shift modifier held: `wxMouseEvent::ShiftDown()`. -/
def ShiftDown (e : wxMouseEvent) : Bool := e.shiftDown

end wxMouseEvent

/-- The event handed to a handler (TrackPanelMouseEvent.h): the mouse event and
the rectangle of the cell it was delivered to. -/
structure TrackPanelMouseEvent where
  event : wxMouseEvent
  rect : wxRect
deriving DecidableEq, Repr

/-- Modelled from the spec: the result signal of a transition (RefreshCode.h is
not among the sources).  The spec names "no visual change", "redraw all" and
"recompute scrollbar extents", which a transition may combine. -/
structure Result where
  refreshAll : Bool
  fixScrollbars : Bool
deriving DecidableEq, Repr

namespace RefreshCode

/-- Modelled from the spec: "no visual change". -/
def RefreshNone : Result := ⟨false, false⟩

/-- Modelled from the spec: "redraw all". -/
def RefreshAll : Result := ⟨true, false⟩

/-- Modelled from the spec: "recompute scrollbar extents". -/
def FixScrollbars : Result := ⟨false, true⟩

end RefreshCode

/-- Modelled from the spec: the composition `a | b` of two result signals. -/
def Result.or (a b : Result) : Result :=
  ⟨a.refreshAll || b.refreshAll, a.fixScrollbars || b.fixScrollbars⟩

/-- Modelled from the spec: the shared viewport `ViewInfo` (ViewInfo.h is not
among the sources).  `h` is the offset, the time shown at the left edge of the
visible surface; `zoom` is the scale in pixels per unit of time.  Both are
rationals: this is the viewport with arithmetic taken exactly. -/
structure ViewInfo where
  h : ℚ
  zoom : ℚ
deriving DecidableEq, Repr

namespace ViewInfo

/-- Modelled from the spec: the pixel to time conversion
`PositionToTime(position, origin)`, the affine map
`offset + (position - origin) / scale`.  The one-argument call of the source is
the call with `origin = 0`. -/
def PositionToTime (v : ViewInfo) (position origin : ℤ) : ℚ :=
  v.h + ((position - origin : ℤ) : ℚ) / v.zoom

/-- Modelled from the spec: `SetZoom(pixelsPerSecond)` stores the requested
scale after the model has limited it to an admissible one.  How the model limits
a request is not in the sources, so the limiting map `limit` is a parameter
(`id` is the model that does not clamp). -/
def SetZoom (limit : ℚ → ℚ) (v : ViewInfo) (pixelsPerSecond : ℚ) : ViewInfo :=
  { v with zoom := limit pixelsPerSecond }

/-- Modelled from the spec: `ZoomBy(multiplier)` applies the multiplier to the
scale ("new visible span = old visible span / multiplier"). -/
def ZoomBy (limit : ℚ → ℚ) (v : ViewInfo) (multiplier : ℚ) : ViewInfo :=
  v.SetZoom limit (v.zoom * multiplier)

end ViewInfo

/-! ## Binary64 arithmetic -/

/-- The values of a C++ `double`, IEEE 754 binary64: `finite s m e` stands for
`(-1)^s * m * 2^e`, so both zeros are there, beside the two infinities and one
NaN.  The operations below return finite values in the canonical form: a zero
is `finite s 0 0`, a subnormal has `e = -1074` and `m < 2^52`, a normal number
has `2^52 ≤ m < 2^53` and `-1074 ≤ e ≤ 971`. -/
inductive Double where
  | finite (negative : Bool) (mantissa : ℕ) (exponent : ℤ)
  | infinite (negative : Bool)
  | nan
deriving DecidableEq, Repr

namespace Double

/-- Binary logarithm rounded down, by halving at most `fuel` times. -/
def log2Aux : ℕ → ℕ → ℕ
  | 0, _ => 0
  | fuel + 1, n => if n < 2 then 0 else log2Aux fuel (n / 2) + 1

/-- Binary logarithm of a natural number rounded down (`0` at `0`). -/
def log2 (n : ℕ) : ℕ := log2Aux n n

/-- The binary64 value nearest to the rational `(-1)^negative * n / d` for
`n, d > 0`, ties going to the even mantissa: the rounding every operation
applies to its exact result.  A result beyond the largest finite value is an
infinity, a result below half the smallest subnormal is a zero. -/
def round (negative : Bool) (n d : ℕ) : Double :=
  let a : ℤ := (log2 n : ℤ) - (log2 d : ℤ)
  let lg : ℤ := if d * 2 ^ a.toNat ≤ n * 2 ^ (-a).toNat then a else a - 1
  let e : ℤ := max (lg - 52) (-1074)
  let scaledNum : ℕ := n * 2 ^ (-e).toNat
  let scaledDen : ℕ := d * 2 ^ e.toNat
  let q : ℕ := scaledNum / scaledDen
  let r : ℕ := scaledNum % scaledDen
  let q1 : ℕ :=
    if scaledDen < 2 * r ∨ (scaledDen = 2 * r ∧ q % 2 = 1) then q + 1 else q
  let m : ℕ := if q1 = 2 ^ 53 then 2 ^ 52 else q1
  let e1 : ℤ := if q1 = 2 ^ 53 then e + 1 else e
  if q1 = 0 then finite negative 0 0
  else if 971 < e1 then infinite negative
  else finite negative m e1

/-- The literal `0.0`. -/
def zero : Double := finite false 0 0

/-- The literal `1.0`. -/
def one : Double := finite false (2 ^ 52) (-52)

/-- The literal `0.5`. -/
def half : Double := finite false (2 ^ 52) (-53)

/-- The literal `2.0`. -/
def two : Double := finite false (2 ^ 52) (-51)

/-- Conversion of an integer (`int`, `wxInt64`) to `double`. -/
def ofInt (n : ℤ) : Double :=
  if n = 0 then finite false 0 0 else round (decide (n < 0)) n.natAbs 1

/-- Unary minus. -/
def neg : Double → Double
  | finite s m e => finite (!s) m e
  | infinite s => infinite (!s)
  | nan => nan

/-- The integer `(-1)^negative * m`. -/
def signed (negative : Bool) (m : ℕ) : ℤ := if negative then -(m : ℤ) else (m : ℤ)

/-- Addition `a + b`: the exact sum, rounded.  An exact zero sum is `-0.0` only
when both operands are negative. -/
def add : Double → Double → Double
  | finite s1 m1 e1, finite s2 m2 e2 =>
    let e : ℤ := min e1 e2
    let sum : ℤ :=
      signed s1 m1 * 2 ^ (e1 - e).toNat + signed s2 m2 * 2 ^ (e2 - e).toNat
    if sum = 0 then finite (s1 && s2) 0 0
    else round (decide (sum < 0)) (sum.natAbs * 2 ^ e.toNat) (2 ^ (-e).toNat)
  | finite _ _ _, infinite s => infinite s
  | infinite s, finite _ _ _ => infinite s
  | infinite s1, infinite s2 => if s1 = s2 then infinite s1 else nan
  | _, _ => nan

/-- Subtraction `a - b`. -/
def sub (a b : Double) : Double := add a (neg b)

/-- Multiplication `a * b`: the exact product, rounded. -/
def mul : Double → Double → Double
  | finite s1 m1 e1, finite s2 m2 e2 =>
    if m1 = 0 ∨ m2 = 0 then finite (xor s1 s2) 0 0
    else round (xor s1 s2) (m1 * m2 * 2 ^ (e1 + e2).toNat) (2 ^ (-(e1 + e2)).toNat)
  | finite s1 m1 _, infinite s2 => if m1 = 0 then nan else infinite (xor s1 s2)
  | infinite s1, finite s2 m2 _ => if m2 = 0 then nan else infinite (xor s1 s2)
  | infinite s1, infinite s2 => infinite (xor s1 s2)
  | _, _ => nan

/-- Division `a / b`: the exact quotient, rounded.  A non-zero value over a zero
is an infinity, a zero over a zero is NaN. -/
def div : Double → Double → Double
  | finite s1 m1 e1, finite s2 m2 e2 =>
    if m2 = 0 then (if m1 = 0 then nan else infinite (xor s1 s2))
    else if m1 = 0 then finite (xor s1 s2) 0 0
    else round (xor s1 s2) (m1 * 2 ^ (e1 - e2).toNat) (m2 * 2 ^ (e2 - e1).toNat)
  | finite s1 _ _, infinite s2 => finite (xor s1 s2) 0 0
  | infinite s1, finite s2 _ _ => infinite (xor s1 s2)
  | _, _ => nan

/-- The rational a finite value stands for; nothing for an infinity or NaN. -/
def toRat : Double → Option ℚ
  | finite s m e => some ((signed s m : ℚ) * (2 : ℚ) ^ e)
  | _ => none

/-- The comparison `a < b`; false as soon as one side is NaN. -/
def lt : Double → Double → Bool
  | finite s1 m1 e1, finite s2 m2 e2 =>
    decide (signed s1 m1 * 2 ^ (e1 - min e1 e2).toNat <
      signed s2 m2 * 2 ^ (e2 - min e1 e2).toNat)
  | finite _ _ _, infinite s => !s
  | infinite s, finite _ _ _ => s
  | infinite s1, infinite s2 => s1 && !s2
  | _, _ => false

end Double

namespace Binary64

/-- Modelled from the spec: the shared viewport `ViewInfo` (ViewInfo.h is not
among the sources) with its two `double` members as binary64 values. -/
structure ViewInfo where
  h : Double
  zoom : Double
deriving DecidableEq, Repr

/-- Modelled from the spec: the pixel to time conversion
`PositionToTime(position, origin)`, `offset + (position - origin) / scale`, as
the program evaluates it: the difference of the two `wxInt64` pixels is
converted to `double`, divided by the scale and added to the offset, each
operation rounding its result. -/
def ViewInfo.PositionToTime (v : ViewInfo) (position origin : ℤ) : Double :=
  v.h.add ((Double.ofInt (position - origin)).div v.zoom)

end Binary64

/-! ## The handler -/

/-- The gesture state of `ZoomHandle`: `mZoomStart`, `mZoomEnd` and the
rectangle `mRect` captured at press time. -/
structure ZoomHandle where
  mZoomStart : ℤ
  mZoomEnd : ℤ
  mRect : wxRect
deriving DecidableEq, Repr

namespace ZoomHandle

/-- The constant `DragThreshold` of `IsDragZooming`. -/
def DragThreshold : ℤ := 3

/-- The classifier `ZoomHandle::IsDragZooming`:
`abs(mZoomEnd - mZoomStart) > DragThreshold`. -/
def IsDragZooming (s : ZoomHandle) : Bool :=
  decide (|s.mZoomEnd - s.mZoomStart| > DragThreshold)

/-- The press transition `ZoomHandle::Click`: on a button-down or a left
double-click the pixel and the rectangle are recorded. -/
def Click (s : ZoomHandle) (evt : TrackPanelMouseEvent) : ZoomHandle × Result :=
  let event := evt.event
  let s1 : ZoomHandle :=
    if event.ButtonDown || event.LeftDClick then
      { mZoomStart := event.m_x, mZoomEnd := event.m_x, mRect := evt.rect }
    else s
  (s1, RefreshCode.RefreshNone)

/-- The drag transition `ZoomHandle::Drag`: the end pixel follows the pointer,
kept between the left and right edge of the captured rectangle. -/
def Drag (s : ZoomHandle) (evt : TrackPanelMouseEvent) : ZoomHandle × Result :=
  let event := evt.event
  let left := s.mRect.GetLeft
  let right := s.mRect.GetRight
  let s1 : ZoomHandle := { s with mZoomEnd := event.m_x }
  let s2 : ZoomHandle :=
    if event.m_x < left then { s1 with mZoomEnd := left }
    else if event.m_x > right then { s1 with mZoomEnd := right }
    else s1
  (s2, RefreshCode.RefreshAll)

/-- The first statement of `ZoomHandle::Release`: the recorded pixels are put in
increasing order (`if (mZoomEnd < mZoomStart) std::swap(mZoomStart, mZoomEnd)`). -/
def ordered (s : ZoomHandle) : ZoomHandle :=
  if s.mZoomEnd < s.mZoomStart then
    { s with mZoomStart := s.mZoomEnd, mZoomEnd := s.mZoomStart }
  else s

/-- The divisor `right - left` of the drag path of `ZoomHandle::Release`: the
selected span, from the pixels put in order, with arithmetic taken exactly. -/
def dragDivisor (s : ZoomHandle) (viewInfo : ViewInfo) : ℚ :=
  let s1 := s.ordered
  let trackLeftEdge := s1.mRect.x
  let left := viewInfo.PositionToTime s1.mZoomStart trackLeftEdge
  let right := viewInfo.PositionToTime s1.mZoomEnd trackLeftEdge
  right - left

/-- The multiplier `ZoomHandle::Release` passes to `ZoomBy`, with arithmetic
taken exactly.  On the drag path it is the visible span over the selected span
`dragDivisor`, inverted when shift is held; on the click path it is `0.5` for a
right-button up, a right double-click or shift, and `2.0` otherwise. -/
def zoomMultiplier (s : ZoomHandle) (viewInfo : ViewInfo)
    (evt : TrackPanelMouseEvent) : ℚ :=
  let event := evt.event
  let s1 := s.ordered
  if s1.IsDragZooming then
    let multiplier :=
      (viewInfo.PositionToTime s1.mRect.width 0 - viewInfo.PositionToTime 0 0) /
        dragDivisor s viewInfo
    if event.ShiftDown then 1 / multiplier else multiplier
  else
    if event.RightUp || event.RightDClick || event.ShiftDown then 1 / 2 else 2

/-- The release transition `ZoomHandle::Release`, with arithmetic taken
exactly.  `limit` is the limiting map of the viewport model and `defaultZoom`
the value of `ZoomInfo::GetDefaultZoom()`; neither is in the sources.  The
result is the new gesture state, the new viewport and the result code. -/
def Release (limit : ℚ → ℚ) (defaultZoom : ℚ) (s : ZoomHandle)
    (viewInfo : ViewInfo) (evt : TrackPanelMouseEvent) :
    ZoomHandle × ViewInfo × Result :=
  let event := evt.event
  let s1 := s.ordered
  let trackLeftEdge := s1.mRect.x
  let v3 : ViewInfo :=
    if s1.IsDragZooming then
      let left := viewInfo.PositionToTime s1.mZoomStart trackLeftEdge
      let v1 := viewInfo.ZoomBy limit (zoomMultiplier s viewInfo evt)
      { v1 with h := left }
    else
      let center_h := viewInfo.PositionToTime event.m_x trackLeftEdge
      let v1 := viewInfo.ZoomBy limit (zoomMultiplier s viewInfo evt)
      let v2 :=
        if event.MiddleUp || event.MiddleDClick then v1.SetZoom limit defaultZoom
        else v1
      let new_center_h := v2.PositionToTime event.m_x trackLeftEdge
      { v2 with h := v2.h + (center_h - new_center_h) }
  let s2 : ZoomHandle := { s1 with mZoomEnd := 0, mZoomStart := 0 }
  (s2, v3, RefreshCode.RefreshAll.or RefreshCode.FixScrollbars)

/-- The cancel transition `ZoomHandle::Cancel`: "there is no initial state to
restore, so just return a code". -/
def Cancel (s : ZoomHandle) : ZoomHandle × Result :=
  (s, RefreshCode.RefreshAll)

/-- Modelled from the spec: the drawing passes of a handler (UIHandle.h is not
among the sources).  The source names the pass `Cells`; `Panel` is the other
pass. -/
inductive DrawingPass where
  | Cells | Panel
deriving DecidableEq, Repr

/-- The calls `ZoomHandle::DrawExtras` makes on the device context `wxDC`
(wx/dc.h), in the order they are made. -/
inductive DCCall where
  | SetBrush_TRANSPARENT_BRUSH
  | SetPen_BLACK_DASHED_PEN
  | DrawRectangle (rect : wxRect)
deriving DecidableEq, Repr

/-- The overlay `ZoomHandle::DrawExtras`: in the `Cells` pass, and only while
the gesture counts as a drag zoom, a dashed outline over the selected columns.
The result is the list of calls made on the device context. -/
def DrawExtras (s : ZoomHandle) (pass : DrawingPass) (panelRect : wxRect) :
    List DCCall :=
  if pass = DrawingPass.Cells then
    if !s.IsDragZooming then []
    else
      let rect : wxRect := ⟨0, 0, 0, 0⟩
      let rect := { rect with x := min s.mZoomStart s.mZoomEnd }
      let rect := { rect with width := 1 + |s.mZoomEnd - s.mZoomStart| }
      let rect := { rect with y := -1 }
      let rect := { rect with height := panelRect.height + 2 }
      [DCCall.SetBrush_TRANSPARENT_BRUSH, DCCall.SetPen_BLACK_DASHED_PEN,
        DCCall.DrawRectangle rect]
  else []

/-- One call of a transition of the handler, with the event it is given. -/
inductive Call where
  | Click (evt : TrackPanelMouseEvent)
  | Drag (evt : TrackPanelMouseEvent)
  | Release (evt : TrackPanelMouseEvent)
  | Cancel
deriving DecidableEq, Repr

/-- One transition on the handler together with the `ViewInfo` of the project
every transition is handed.  `Click`, `Drag` and `Cancel` receive the project
pointer without naming it, so only `Release` reaches the `ViewInfo`. -/
def dispatch (limit : ℚ → ℚ) (defaultZoom : ℚ) (s : ZoomHandle)
    (viewInfo : ViewInfo) : Call → ZoomHandle × ViewInfo × Result
  | Call.Click evt => ((Click s evt).1, viewInfo, (Click s evt).2)
  | Call.Drag evt => ((Drag s evt).1, viewInfo, (Drag s evt).2)
  | Call.Release evt => Release limit defaultZoom s viewInfo evt
  | Call.Cancel => ((Cancel s).1, viewInfo, (Cancel s).2)

namespace Binary64

/-- The divisor `right - left` of the drag path of `ZoomHandle::Release` as the
program computes it: `left` and `right` are the binary64 results of
`PositionToTime` at the pixels put in order, and the difference is rounded. -/
def dragDivisor (s : ZoomHandle) (viewInfo : Binary64.ViewInfo) : Double :=
  let s1 := s.ordered
  let trackLeftEdge := s1.mRect.x
  let left := viewInfo.PositionToTime s1.mZoomStart trackLeftEdge
  let right := viewInfo.PositionToTime s1.mZoomEnd trackLeftEdge
  right.sub left

/-- The multiplier `ZoomHandle::Release` passes to `ZoomBy` as the program
computes it, in binary64: on the drag path the visible span over `dragDivisor`,
replaced by `1.0 / multiplier` when shift is held; on the click path the
literal `0.5` or `2.0`. -/
def zoomMultiplier (s : ZoomHandle) (viewInfo : Binary64.ViewInfo)
    (evt : TrackPanelMouseEvent) : Double :=
  let event := evt.event
  let s1 := s.ordered
  if s1.IsDragZooming then
    let multiplier :=
      ((viewInfo.PositionToTime s1.mRect.width 0).sub
        (viewInfo.PositionToTime 0 0)).div (dragDivisor s viewInfo)
    if event.ShiftDown then Double.one.div multiplier else multiplier
  else
    if event.RightUp || event.RightDClick || event.ShiftDown then Double.half
    else Double.two

end Binary64

/-! ## Basic facts about binary64 rounding -/

/-- Sample values of the binary64 operations: the literals, `1 / 10` (the
`double` `0x1.999999999999ap-4`), `0.1 + 0.2` against `3 / 10`, ties going to
the even mantissa at `2^53 + 1` and `2^53 + 3`, a sum absorbed by a large
operand, and a division by zero. -/
theorem binary64_samples :
    Double.ofInt 1 = Double.one ∧
    Double.ofInt 2 = Double.two ∧
    Double.one.div Double.two = Double.half ∧
    (Double.ofInt 1).div (Double.ofInt 10) = Double.finite false 7205759403792794 (-56) ∧
    ((Double.ofInt 1).div (Double.ofInt 10)).add ((Double.ofInt 2).div (Double.ofInt 10)) =
      Double.finite false 5404319552844596 (-54) ∧
    (Double.ofInt 3).div (Double.ofInt 10) = Double.finite false 5404319552844595 (-54) ∧
    Double.ofInt (2 ^ 53 + 1) = Double.ofInt (2 ^ 53) ∧
    Double.ofInt (2 ^ 53 + 3) = Double.ofInt (2 ^ 53 + 4) ∧
    (Double.ofInt (2 ^ 62)).add (Double.ofInt 500) = Double.ofInt (2 ^ 62) ∧
    Double.one.div Double.zero = Double.infinite false := by
  set_option maxRecDepth 100000 in
  decide

/-! ## Basic facts about the classifier and the ordering step -/

theorem IsDragZooming_eq_true_iff (s : ZoomHandle) :
    s.IsDragZooming = true ↔ 3 < |s.mZoomEnd - s.mZoomStart| := by
  simp [IsDragZooming, DragThreshold]

theorem IsDragZooming_eq_false_iff (s : ZoomHandle) :
    s.IsDragZooming = false ↔ |s.mZoomEnd - s.mZoomStart| ≤ 3 := by
  simp [IsDragZooming, DragThreshold]

theorem ordered_mRect (s : ZoomHandle) : s.ordered.mRect = s.mRect := by
  unfold ordered; split <;> rfl

theorem ordered_mZoomStart (s : ZoomHandle) :
    s.ordered.mZoomStart = min s.mZoomStart s.mZoomEnd := by
  unfold ordered
  split
  · next hlt => simp [min_eq_right (le_of_lt hlt)]
  · next hge => simp [min_eq_left (not_lt.mp hge)]

theorem ordered_mZoomEnd (s : ZoomHandle) :
    s.ordered.mZoomEnd = max s.mZoomStart s.mZoomEnd := by
  unfold ordered
  split
  · next hlt => simp [max_eq_left (le_of_lt hlt)]
  · next hge => simp [max_eq_right (not_lt.mp hge)]

theorem ordered_IsDragZooming (s : ZoomHandle) :
    s.ordered.IsDragZooming = s.IsDragZooming := by
  unfold ordered
  split
  · simp [IsDragZooming, abs_sub_comm s.mZoomStart s.mZoomEnd]
  · rfl

theorem max_sub_min_eq_abs (a b : ℤ) : max a b - min a b = |b - a| := by
  rcases le_total a b with h | h
  · rw [max_eq_right h, min_eq_left h, abs_of_nonneg (sub_nonneg.mpr h)]
  · rw [max_eq_left h, min_eq_right h, abs_sub_comm, abs_of_nonneg (sub_nonneg.mpr h)]

/-- The viewport `Release` leaves behind on the click path. -/
theorem Release_view_of_click (limit : ℚ → ℚ) (defaultZoom : ℚ) (s : ZoomHandle)
    (v : ViewInfo) (evt : TrackPanelMouseEvent) (hclick : s.IsDragZooming = false) :
    (Release limit defaultZoom s v evt).2.1 =
      (let v1 := v.ZoomBy limit (zoomMultiplier s v evt)
       let v2 := if evt.event.MiddleUp || evt.event.MiddleDClick
                 then v1.SetZoom limit defaultZoom else v1
       { v2 with h := v2.h + (v.PositionToTime evt.event.m_x s.mRect.x -
                              v2.PositionToTime evt.event.m_x s.mRect.x) }) := by
  simp only [Release, ordered_IsDragZooming, hclick, ordered_mRect]
  rfl

/-- The viewport `Release` leaves behind on the drag path. -/
theorem Release_view_of_drag (limit : ℚ → ℚ) (defaultZoom : ℚ) (s : ZoomHandle)
    (v : ViewInfo) (evt : TrackPanelMouseEvent) (hdrag : s.IsDragZooming = true) :
    (Release limit defaultZoom s v evt).2.1 =
      { v.ZoomBy limit (zoomMultiplier s v evt) with
        h := v.PositionToTime (min s.mZoomStart s.mZoomEnd) s.mRect.x } := by
  simp only [Release, ordered_IsDragZooming, hdrag, ordered_mRect, ordered_mZoomStart]
  rfl

/-- The multiplier on the click path. -/
theorem zoomMultiplier_of_click (s : ZoomHandle) (v : ViewInfo)
    (evt : TrackPanelMouseEvent) (hclick : s.IsDragZooming = false) :
    zoomMultiplier s v evt =
      if evt.event.RightUp || evt.event.RightDClick || evt.event.ShiftDown
      then 1 / 2 else 2 := by
  simp only [zoomMultiplier, ordered_IsDragZooming, hclick]
  rfl

/-- The multiplier on the drag path, before the shift inversion, in closed
form: the width of the rectangle over the number of selected pixels. -/
theorem zoomMultiplier_of_drag (s : ZoomHandle) (v : ViewInfo)
    (evt : TrackPanelMouseEvent) (hscale : 0 < v.zoom)
    (hdrag : s.IsDragZooming = true) :
    zoomMultiplier s v evt =
      if evt.event.ShiftDown
      then 1 / ((s.mRect.width : ℚ) / ((|s.mZoomEnd - s.mZoomStart| : ℤ) : ℚ))
      else (s.mRect.width : ℚ) / ((|s.mZoomEnd - s.mZoomStart| : ℤ) : ℚ) := by
  have hz : v.zoom ≠ 0 := ne_of_gt hscale
  have hspan : (v.PositionToTime s.mRect.width 0 - v.PositionToTime 0 0) /
      (v.PositionToTime (max s.mZoomStart s.mZoomEnd) s.mRect.x -
        v.PositionToTime (min s.mZoomStart s.mZoomEnd) s.mRect.x) =
      (s.mRect.width : ℚ) / ((|s.mZoomEnd - s.mZoomStart| : ℤ) : ℚ) := by
    have h3 := (IsDragZooming_eq_true_iff s).mp hdrag
    rw [← max_sub_min_eq_abs] at h3 ⊢
    generalize max s.mZoomStart s.mZoomEnd = b at h3 ⊢
    generalize min s.mZoomStart s.mZoomEnd = a at h3 ⊢
    have hne : ((b - a : ℤ) : ℚ) ≠ 0 := by
      have h4 : b - a ≠ 0 := by omega
      exact_mod_cast h4
    have hsel : v.PositionToTime b s.mRect.x - v.PositionToTime a s.mRect.x =
        ((b - a : ℤ) : ℚ) / v.zoom := by
      simp only [ViewInfo.PositionToTime]
      push_cast
      ring
    have hvis : v.PositionToTime s.mRect.width 0 - v.PositionToTime 0 0 =
        (s.mRect.width : ℚ) / v.zoom := by
      simp [ViewInfo.PositionToTime]
    rw [hsel, hvis]
    field_simp
  simp only [zoomMultiplier, dragDivisor, ordered_IsDragZooming, hdrag, ordered_mRect,
    ordered_mZoomStart, ordered_mZoomEnd]
  simp only [if_true, hspan]

/-- The drag transition keeps the start pixel and the rectangle, and puts the
end pixel between the edges of a rectangle that has at least one column. -/
theorem Drag_within_bounds (t : ZoomHandle) (e : TrackPanelMouseEvent)
    (hne : t.mRect.GetLeft ≤ t.mRect.GetRight) :
    (Drag t e).1.mRect = t.mRect ∧ (Drag t e).1.mZoomStart = t.mZoomStart ∧
    t.mRect.GetLeft ≤ (Drag t e).1.mZoomEnd ∧
    (Drag t e).1.mZoomEnd ≤ t.mRect.GetRight := by
  simp only [Drag]
  split_ifs with hlt hgt
  · exact ⟨rfl, rfl, le_refl _, hne⟩
  · exact ⟨rfl, rfl, hne, le_refl _⟩
  · exact ⟨rfl, rfl, not_lt.mp hlt, not_lt.mp hgt⟩

/-- A run of drag transitions keeps the start pixel and the rectangle, and
leaves the end pixel between the edges when it was there before. -/
theorem foldl_Drag_within_bounds (drags : List TrackPanelMouseEvent) (t : ZoomHandle)
    (hlo : t.mRect.GetLeft ≤ t.mZoomEnd) (hhi : t.mZoomEnd ≤ t.mRect.GetRight) :
    (drags.foldl (fun u e => (Drag u e).1) t).mRect = t.mRect ∧
    (drags.foldl (fun u e => (Drag u e).1) t).mZoomStart = t.mZoomStart ∧
    t.mRect.GetLeft ≤ (drags.foldl (fun u e => (Drag u e).1) t).mZoomEnd ∧
    (drags.foldl (fun u e => (Drag u e).1) t).mZoomEnd ≤ t.mRect.GetRight := by
  induction drags generalizing t with
  | nil => exact ⟨rfl, rfl, hlo, hhi⟩
  | cons e rest ih =>
    have hstep := Drag_within_bounds t e (le_trans hlo hhi)
    obtain ⟨hrect, hstart, hlo1, hhi1⟩ := hstep
    have hrec := ih (Drag t e).1 (by rw [hrect]; exact hlo1) (by rw [hrect]; exact hhi1)
    simp only [List.foldl_cons]
    rw [hrect, hstart] at hrec
    exact hrec

/-- On the click path the two readings of the arithmetic agree: the binary64
multiplier is the literal `0.5` or `2.0`, which stands for the rational
multiplier `1 / 2` or `2`, whatever the viewports are. -/
theorem zoomMultiplier_click_binary64 (s : ZoomHandle) (v : ViewInfo)
    (w : Binary64.ViewInfo) (evt : TrackPanelMouseEvent)
    (hclick : s.IsDragZooming = false) :
    (Binary64.zoomMultiplier s w evt).toRat = some (zoomMultiplier s v evt) := by
  rw [zoomMultiplier_of_click s v evt hclick]
  simp only [Binary64.zoomMultiplier, ordered_IsDragZooming, hclick]
  cases (evt.event.RightUp || evt.event.RightDClick || evt.event.ShiftDown) <;>
    simp [Double.toRat, Double.half, Double.two, Double.signed, zpow_neg] <;>
    norm_num

/-! ## Release: anchors and multipliers -/

set_option maxRecDepth 100000

/-- C1. Click-zoom anchor preservation: for every viewport with a positive
scale, every captured rectangle and every release event, whenever the recorded
pixels classify the gesture as a click (`|mZoomEnd - mZoomStart| ≤ 3`), the time
under the event pixel, `PositionToTime(m_x, mRect.x)`, is the same on the
viewport after `Release` as on the viewport before it.  The event is arbitrary,
so the zoom-in, zoom-out and middle-button reset branches are all covered, and
the equality holds whatever scale the viewport model settles on. -/
theorem click_zoom_preserves_anchor (limit : ℚ → ℚ) (defaultZoom : ℚ)
    (s : ZoomHandle) (v : ViewInfo) (evt : TrackPanelMouseEvent)
    (hscale : 0 < v.zoom) (hclick : |s.mZoomEnd - s.mZoomStart| ≤ 3) :
    (Release limit defaultZoom s v evt).2.1.PositionToTime evt.event.m_x s.mRect.x =
      v.PositionToTime evt.event.m_x s.mRect.x := by
  have _hz : v.zoom ≠ 0 := ne_of_gt hscale
  rw [Release_view_of_click limit defaultZoom s v evt
    ((IsDragZooming_eq_false_iff s).mpr hclick)]
  simp only [ViewInfo.PositionToTime]
  ring

/-- The anchor theorem at a middle-button click on pixel 102 of a viewport with
offset 5 and scale 10. -/
theorem click_zoom_preserves_anchor_witness :
    (0 : ℚ) < (ViewInfo.mk 5 10).zoom ∧
    |(ZoomHandle.mk 100 102 ⟨0, 0, 800, 100⟩).mZoomEnd -
      (ZoomHandle.mk 100 102 ⟨0, 0, 800, 100⟩).mZoomStart| ≤ 3 ∧
    (Release id 86 (ZoomHandle.mk 100 102 ⟨0, 0, 800, 100⟩) (ViewInfo.mk 5 10)
        ⟨⟨.MIDDLE_UP, 102, false⟩, ⟨0, 0, 800, 100⟩⟩).2.1.PositionToTime 102 0 =
      (ViewInfo.mk 5 10).PositionToTime 102 0 :=
  ⟨by norm_num, by norm_num,
    click_zoom_preserves_anchor id 86 (ZoomHandle.mk 100 102 ⟨0, 0, 800, 100⟩)
      (ViewInfo.mk 5 10) ⟨⟨.MIDDLE_UP, 102, false⟩, ⟨0, 0, 800, 100⟩⟩
      (by norm_num) (by norm_num)⟩

/-- C2. Drag-zoom start anchor: for every viewport with a positive scale and
every gesture state classified as a drag (`|mZoomEnd - mZoomStart| > 3`), the
offset `h` of the viewport after `Release` is the time that the smaller of
`mZoomStart` and `mZoomEnd` mapped to on the viewport before the release.  The
event is arbitrary, so this holds with and without shift. -/
theorem drag_zoom_offset_is_start_time (limit : ℚ → ℚ) (defaultZoom : ℚ)
    (s : ZoomHandle) (v : ViewInfo) (evt : TrackPanelMouseEvent)
    (hscale : 0 < v.zoom) (hdrag : 3 < |s.mZoomEnd - s.mZoomStart|) :
    (Release limit defaultZoom s v evt).2.1.h =
      v.PositionToTime (min s.mZoomStart s.mZoomEnd) s.mRect.x := by
  have _hz : v.zoom ≠ 0 := ne_of_gt hscale
  rw [Release_view_of_drag limit defaultZoom s v evt
    ((IsDragZooming_eq_true_iff s).mpr hdrag)]

/-- The start-anchor theorem at a right-to-left drag from pixel 500 to pixel
100, released with shift held. -/
theorem drag_zoom_offset_is_start_time_witness :
    (0 : ℚ) < (ViewInfo.mk 5 10).zoom ∧
    3 < |(ZoomHandle.mk 500 100 ⟨0, 0, 800, 100⟩).mZoomEnd -
      (ZoomHandle.mk 500 100 ⟨0, 0, 800, 100⟩).mZoomStart| ∧
    (Release id 86 (ZoomHandle.mk 500 100 ⟨0, 0, 800, 100⟩) (ViewInfo.mk 5 10)
        ⟨⟨.RIGHT_UP, 100, true⟩, ⟨0, 0, 800, 100⟩⟩).2.1.h =
      (ViewInfo.mk 5 10).PositionToTime (min 500 100) 0 :=
  ⟨by norm_num, by norm_num,
    drag_zoom_offset_is_start_time id 86 (ZoomHandle.mk 500 100 ⟨0, 0, 800, 100⟩)
      (ViewInfo.mk 5 10) ⟨⟨.RIGHT_UP, 100, true⟩, ⟨0, 0, 800, 100⟩⟩
      (by norm_num) (by norm_num)⟩

/-- C3, as the code has it. Drag-zoom fits the selection, with arithmetic taken
exactly: for a release without shift of a
drag-classified gesture over the pixels `a = min(mZoomStart, mZoomEnd)` and
`b = max(mZoomStart, mZoomEnd)`, with a rectangle of width `w > 0`, a positive
scale and a viewport model that stores the requested scale unclamped, the
multiplier handed to `ZoomBy` is `w / (b - a)`, the visible span after the
release, `PositionToTime(w) - PositionToTime(0)`, is the selected span
`PositionToTime(b, mRect.x) - PositionToTime(a, mRect.x)` measured before the
release, and that span is the old visible span times `(b - a) / w`. -/
theorem drag_zoom_fits_selection (limit : ℚ → ℚ) (defaultZoom : ℚ)
    (s : ZoomHandle) (v : ViewInfo) (evt : TrackPanelMouseEvent)
    (hscale : 0 < v.zoom) (hwidth : 0 < s.mRect.width)
    (hdrag : 3 < |s.mZoomEnd - s.mZoomStart|)
    (hshift : evt.event.ShiftDown = false)
    (hunclamped : limit (v.zoom * zoomMultiplier s v evt) =
      v.zoom * zoomMultiplier s v evt) :
    min s.mZoomStart s.mZoomEnd < max s.mZoomStart s.mZoomEnd ∧
    zoomMultiplier s v evt =
      (s.mRect.width : ℚ) /
        ((max s.mZoomStart s.mZoomEnd : ℤ) - (min s.mZoomStart s.mZoomEnd : ℤ)) ∧
    (Release limit defaultZoom s v evt).2.1.PositionToTime s.mRect.width 0 -
        (Release limit defaultZoom s v evt).2.1.PositionToTime 0 0 =
      v.PositionToTime (max s.mZoomStart s.mZoomEnd) s.mRect.x -
        v.PositionToTime (min s.mZoomStart s.mZoomEnd) s.mRect.x ∧
    (Release limit defaultZoom s v evt).2.1.PositionToTime s.mRect.width 0 -
        (Release limit defaultZoom s v evt).2.1.PositionToTime 0 0 =
      (v.PositionToTime s.mRect.width 0 - v.PositionToTime 0 0) *
        ((((max s.mZoomStart s.mZoomEnd : ℤ) : ℚ) - (min s.mZoomStart s.mZoomEnd : ℤ)) /
          (s.mRect.width : ℚ)) := by
  have hd := (IsDragZooming_eq_true_iff s).mpr hdrag
  have hz : v.zoom ≠ 0 := ne_of_gt hscale
  have hw : (s.mRect.width : ℚ) ≠ 0 := by
    have : s.mRect.width ≠ 0 := ne_of_gt hwidth
    exact_mod_cast this
  have hview := Release_view_of_drag limit defaultZoom s v evt hd
  have hmul := zoomMultiplier_of_drag s v evt hscale hd
  rw [hshift] at hmul
  simp only [Bool.false_eq_true, if_false] at hmul
  rw [hmul] at hunclamped
  rw [hview, hmul, ViewInfo.ZoomBy, ViewInfo.SetZoom, hunclamped]
  rw [← max_sub_min_eq_abs] at hdrag ⊢
  generalize max s.mZoomStart s.mZoomEnd = b at hdrag ⊢
  generalize min s.mZoomStart s.mZoomEnd = a at hdrag ⊢
  have hab : a < b := by omega
  have hne : (b : ℚ) - (a : ℚ) ≠ 0 := by
    have h4 : b - a ≠ 0 := by omega
    exact_mod_cast h4
  refine ⟨hab, ?_, ?_, ?_⟩
  · push_cast
    rfl
  · simp only [ViewInfo.PositionToTime]
    push_cast
    field_simp
    ring
  · simp only [ViewInfo.PositionToTime]
    push_cast
    field_simp
    ring

/-- The fit theorem at a drag over the pixels 100 to 500 of a rectangle 800
pixels wide, on the model that does not clamp. -/
theorem drag_zoom_fits_selection_witness :
    (Release id 86 (ZoomHandle.mk 500 100 ⟨0, 0, 800, 100⟩) (ViewInfo.mk 5 10)
        ⟨⟨.RIGHT_UP, 100, false⟩, ⟨0, 0, 800, 100⟩⟩).2.1.PositionToTime 800 0 -
      (Release id 86 (ZoomHandle.mk 500 100 ⟨0, 0, 800, 100⟩) (ViewInfo.mk 5 10)
        ⟨⟨.RIGHT_UP, 100, false⟩, ⟨0, 0, 800, 100⟩⟩).2.1.PositionToTime 0 0 =
      (ViewInfo.mk 5 10).PositionToTime (max 500 100) 0 -
        (ViewInfo.mk 5 10).PositionToTime (min 500 100) 0 :=
  (drag_zoom_fits_selection id 86 (ZoomHandle.mk 500 100 ⟨0, 0, 800, 100⟩)
      (ViewInfo.mk 5 10) ⟨⟨.RIGHT_UP, 100, false⟩, ⟨0, 0, 800, 100⟩⟩
      (by norm_num) (by norm_num) (by norm_num) rfl rfl).2.2.1

/-- C3 as stated fails on the binary64 arithmetic of the program.  On the
viewport with offset 5 and scale 10, a drag without shift over the pixels 100
and 113 of a rectangle 800 pixels wide hands `ZoomBy` a multiplier that is not
the `double` `800 / 13`: the rounded `right - left` is not `13 / 10`.  On the
viewport with offset `2^62` and scale 1, the pixels 100 and 500 give the
multiplier infinity where `800 / 400` is `2.0`. -/
theorem drag_zoom_multiplier_in_binary64 :
    Double.lt Double.zero (Double.ofInt 10) = true ∧
    (ZoomHandle.mk 100 113 ⟨0, 0, 800, 100⟩).ordered.IsDragZooming = true ∧
    Binary64.zoomMultiplier (ZoomHandle.mk 100 113 ⟨0, 0, 800, 100⟩)
        (Binary64.ViewInfo.mk (Double.ofInt 5) (Double.ofInt 10))
        ⟨⟨.RIGHT_UP, 113, false⟩, ⟨0, 0, 800, 100⟩⟩ =
      Double.finite false 8660768514174026 (-47) ∧
    (Double.ofInt 800).div (Double.ofInt (113 - 100)) =
      Double.finite false 8660768514174031 (-47) ∧
    Binary64.zoomMultiplier (ZoomHandle.mk 100 113 ⟨0, 0, 800, 100⟩)
        (Binary64.ViewInfo.mk (Double.ofInt 5) (Double.ofInt 10))
        ⟨⟨.RIGHT_UP, 113, false⟩, ⟨0, 0, 800, 100⟩⟩ ≠
      (Double.ofInt 800).div (Double.ofInt (113 - 100)) ∧
    Binary64.zoomMultiplier (ZoomHandle.mk 100 500 ⟨0, 0, 800, 100⟩)
        (Binary64.ViewInfo.mk (Double.ofInt (2 ^ 62)) Double.one)
        ⟨⟨.RIGHT_UP, 500, false⟩, ⟨0, 0, 800, 100⟩⟩ = Double.infinite false ∧
    (Double.ofInt 800).div (Double.ofInt (500 - 100)) = Double.two := by
  have hdrag1 : (ZoomHandle.mk 100 113 ⟨0, 0, 800, 100⟩).ordered.IsDragZooming = true :=
    (ordered_IsDragZooming _).trans ((IsDragZooming_eq_true_iff _).mpr (by decide))
  have hdrag2 : (ZoomHandle.mk 100 500 ⟨0, 0, 800, 100⟩).ordered.IsDragZooming = true :=
    (ordered_IsDragZooming _).trans ((IsDragZooming_eq_true_iff _).mpr (by decide))
  have hmul1 : Binary64.zoomMultiplier (ZoomHandle.mk 100 113 ⟨0, 0, 800, 100⟩)
      (Binary64.ViewInfo.mk (Double.ofInt 5) (Double.ofInt 10))
      ⟨⟨.RIGHT_UP, 113, false⟩, ⟨0, 0, 800, 100⟩⟩ =
      Double.finite false 8660768514174026 (-47) := by
    simp only [Binary64.zoomMultiplier, hdrag1, if_true]
    decide
  have hquot : (Double.ofInt 800).div (Double.ofInt (113 - 100)) =
      Double.finite false 8660768514174031 (-47) := by decide
  have hmul2 : Binary64.zoomMultiplier (ZoomHandle.mk 100 500 ⟨0, 0, 800, 100⟩)
      (Binary64.ViewInfo.mk (Double.ofInt (2 ^ 62)) Double.one)
      ⟨⟨.RIGHT_UP, 500, false⟩, ⟨0, 0, 800, 100⟩⟩ = Double.infinite false := by
    simp only [Binary64.zoomMultiplier, hdrag2, if_true]
    decide
  refine ⟨by decide, hdrag1, hmul1, hquot, ?_, hmul2, by decide⟩
  rw [hmul1, hquot]
  decide

/-! ## The threshold between a click and a drag -/

/-- C4, as the code has it. Threshold boundary, end to end: after a press at a
pixel `p` inside the captured rectangle, a drag to `p + c` with `c` in
`{1, 2, 3}` leaves the gesture classified as a click, and a drag to `p + 4`
leaves it classified as a drag exactly when `p + 4` is still inside the
rectangle (`p + 4 ≤ GetRight`); beyond the right edge the end pixel is clamped
and the gesture stays a click. -/
theorem threshold_boundary (s : ZoomHandle) (rect moveRect : wxRect) (p c : ℤ)
    (pressType moveType : wxMouseEventType) (pressShift moveShift : Bool)
    (hpress : ((wxMouseEvent.mk pressType p pressShift).ButtonDown ||
      (wxMouseEvent.mk pressType p pressShift).LeftDClick) = true)
    (hleft : rect.GetLeft ≤ p) (hright : p ≤ rect.GetRight) :
    (1 ≤ c → c ≤ 3 →
      (Drag (Click s ⟨⟨pressType, p, pressShift⟩, rect⟩).1
        ⟨⟨moveType, p + c, moveShift⟩, moveRect⟩).1.IsDragZooming = false) ∧
    ((Drag (Click s ⟨⟨pressType, p, pressShift⟩, rect⟩).1
        ⟨⟨moveType, p + 4, moveShift⟩, moveRect⟩).1.IsDragZooming = true ↔
      p + 4 ≤ rect.GetRight) := by
  have hclick : (Click s ⟨⟨pressType, p, pressShift⟩, rect⟩).1 = ⟨p, p, rect⟩ := by
    simp only [Click, hpress, if_true]
  rw [hclick]
  constructor
  · intro h1 h3
    rw [IsDragZooming_eq_false_iff]
    simp only [Drag]
    split_ifs with hlt hgt
    · simp only [wxRect.GetLeft] at hlt hleft; omega
    · simp only [wxRect.GetRight] at hgt hright ⊢
      rw [abs_le]; constructor <;> omega
    · simp only [add_sub_cancel_left]
      rw [abs_le]; constructor <;> omega
  · rw [IsDragZooming_eq_true_iff]
    simp only [Drag]
    split_ifs with hlt hgt
    · simp only [wxRect.GetLeft] at hlt hleft; omega
    · simp only [wxRect.GetRight] at hgt hright ⊢
      rw [lt_abs]
      constructor
      · intro h; omega
      · intro h; omega
    · simp only [wxRect.GetRight, not_lt] at hgt hright ⊢
      simp only [add_sub_cancel_left]
      constructor
      · intro _; omega
      · intro _; norm_num

/-- The threshold theorem at a left-button press on pixel 100 of a rectangle 800
pixels wide, followed by a drag to pixel 103. -/
theorem threshold_boundary_witness :
    (Drag (Click ⟨0, 0, ⟨0, 0, 0, 0⟩⟩ ⟨⟨.LEFT_DOWN, 100, false⟩, ⟨0, 0, 800, 100⟩⟩).1
        ⟨⟨.MOTION, 100 + 3, false⟩, ⟨0, 0, 800, 100⟩⟩).1.IsDragZooming = false ∧
    (Drag (Click ⟨0, 0, ⟨0, 0, 0, 0⟩⟩ ⟨⟨.LEFT_DOWN, 100, false⟩, ⟨0, 0, 800, 100⟩⟩).1
        ⟨⟨.MOTION, 100 + 4, false⟩, ⟨0, 0, 800, 100⟩⟩).1.IsDragZooming = true :=
  have h := threshold_boundary ⟨0, 0, ⟨0, 0, 0, 0⟩⟩ ⟨0, 0, 800, 100⟩ ⟨0, 0, 800, 100⟩
    100 3 .LEFT_DOWN .MOTION false false rfl (by decide) (by decide)
  ⟨h.1 (by decide) (by decide), h.2.mpr (by decide)⟩

/-- C4 as stated fails: a press on pixel 797 of the rectangle with columns 0 to
799 lies inside the rectangle, and a drag to pixel 797 + 4 = 801 is clamped to
799, two pixels from the press, so the gesture is still classified as a
click. -/
theorem threshold_clamped_at_right_edge :
    (wxRect.mk 0 0 800 100).GetLeft ≤ 797 ∧ 797 ≤ (wxRect.mk 0 0 800 100).GetRight ∧
    (Drag (Click ⟨0, 0, ⟨0, 0, 0, 0⟩⟩ ⟨⟨.LEFT_DOWN, 797, false⟩, ⟨0, 0, 800, 100⟩⟩).1
        ⟨⟨.MOTION, 797 + 4, false⟩, ⟨0, 0, 800, 100⟩⟩).1 = ⟨797, 799, ⟨0, 0, 800, 100⟩⟩ ∧
    (Drag (Click ⟨0, 0, ⟨0, 0, 0, 0⟩⟩ ⟨⟨.LEFT_DOWN, 797, false⟩, ⟨0, 0, 800, 100⟩⟩).1
        ⟨⟨.MOTION, 797 + 4, false⟩, ⟨0, 0, 800, 100⟩⟩).1.IsDragZooming = false := by
  refine ⟨by decide, by decide, by decide, ?_⟩
  rw [IsDragZooming_eq_false_iff]
  decide

/-- C5. Swap symmetry: for pixels `a < b` inside the captured rectangle with
`b - a > 3`, pressing at `b`, dragging to `a` and releasing gives the same
outcome (gesture state, viewport scale and offset, result code) as pressing at
`a`, dragging to `b` and releasing with the same event on the same viewport. -/
theorem drag_direction_symmetry (limit : ℚ → ℚ) (defaultZoom : ℚ)
    (s : ZoomHandle) (v : ViewInfo) (rect moveRect : wxRect) (a b : ℤ)
    (pressType moveType : wxMouseEventType) (pressShift moveShift : Bool)
    (release : TrackPanelMouseEvent)
    (hpress : ((wxMouseEvent.mk pressType a pressShift).ButtonDown ||
      (wxMouseEvent.mk pressType a pressShift).LeftDClick) = true)
    (hab : a < b) (hgap : 3 < b - a)
    (hleft : rect.GetLeft ≤ a) (hright : b ≤ rect.GetRight) :
    Release limit defaultZoom
        (Drag (Click s ⟨⟨pressType, b, pressShift⟩, rect⟩).1
          ⟨⟨moveType, a, moveShift⟩, moveRect⟩).1 v release =
      Release limit defaultZoom
        (Drag (Click s ⟨⟨pressType, a, pressShift⟩, rect⟩).1
          ⟨⟨moveType, b, moveShift⟩, moveRect⟩).1 v release := by
  have hpressb : ((wxMouseEvent.mk pressType b pressShift).ButtonDown ||
      (wxMouseEvent.mk pressType b pressShift).LeftDClick) = true := hpress
  have hba : (Drag (Click s ⟨⟨pressType, b, pressShift⟩, rect⟩).1
      ⟨⟨moveType, a, moveShift⟩, moveRect⟩).1 = ⟨b, a, rect⟩ := by
    simp only [Click, hpressb, if_true, Drag]
    rw [if_neg (by simp only [wxRect.GetLeft] at hleft ⊢; omega),
      if_neg (by simp only [wxRect.GetRight] at hright ⊢; omega)]
  have hab2 : (Drag (Click s ⟨⟨pressType, a, pressShift⟩, rect⟩).1
      ⟨⟨moveType, b, moveShift⟩, moveRect⟩).1 = ⟨a, b, rect⟩ := by
    simp only [Click, hpress, if_true, Drag]
    rw [if_neg (by simp only [wxRect.GetLeft] at hleft ⊢; omega),
      if_neg (by simp only [wxRect.GetRight] at hright ⊢; omega)]
  have hord : (ZoomHandle.mk b a rect).ordered = (ZoomHandle.mk a b rect).ordered := by
    simp only [ordered, hab, if_true, if_neg (not_lt.mpr (le_of_lt hab))]
  rw [hba, hab2]
  simp only [Release, zoomMultiplier, dragDivisor, hord]

/-- The symmetry theorem at the pixels 100 and 500 of a rectangle 800 pixels
wide. -/
theorem drag_direction_symmetry_witness :
    Release id 86
        (Drag (Click ⟨0, 0, ⟨0, 0, 0, 0⟩⟩ ⟨⟨.RIGHT_DOWN, 500, false⟩, ⟨0, 0, 800, 100⟩⟩).1
          ⟨⟨.MOTION, 100, false⟩, ⟨0, 0, 800, 100⟩⟩).1 (ViewInfo.mk 5 10)
        ⟨⟨.RIGHT_UP, 100, false⟩, ⟨0, 0, 800, 100⟩⟩ =
      Release id 86
        (Drag (Click ⟨0, 0, ⟨0, 0, 0, 0⟩⟩ ⟨⟨.RIGHT_DOWN, 100, false⟩, ⟨0, 0, 800, 100⟩⟩).1
          ⟨⟨.MOTION, 500, false⟩, ⟨0, 0, 800, 100⟩⟩).1 (ViewInfo.mk 5 10)
        ⟨⟨.RIGHT_UP, 100, false⟩, ⟨0, 0, 800, 100⟩⟩ :=
  drag_direction_symmetry id 86 ⟨0, 0, ⟨0, 0, 0, 0⟩⟩ (ViewInfo.mk 5 10)
    ⟨0, 0, 800, 100⟩ ⟨0, 0, 800, 100⟩ 100 500 .RIGHT_DOWN .MOTION false false
    ⟨⟨.RIGHT_UP, 100, false⟩, ⟨0, 0, 800, 100⟩⟩ rfl (by decide) (by decide)
    (by decide) (by decide)

/-! ## Multipliers of the click path and the shift modifier -/

/-- C6. Click-zoom multiplier selection: for a click-classified release whose
event is neither a middle-button up nor a middle double-click, the multiplier
handed to `ZoomBy` is `0.5` exactly when the event is a right-button up, a right
double-click or has shift held, and `2.0` exactly in every other case; the scale
after the release is the old scale times that multiplier (on a model that stores
the product unclamped); and the same event with shift held gets `0.5`. -/
theorem click_zoom_multiplier (limit : ℚ → ℚ) (defaultZoom : ℚ)
    (s : ZoomHandle) (v : ViewInfo) (evt : TrackPanelMouseEvent)
    (hclick : |s.mZoomEnd - s.mZoomStart| ≤ 3)
    (hmiddle : (evt.event.MiddleUp || evt.event.MiddleDClick) = false)
    (hunclamped : limit (v.zoom * zoomMultiplier s v evt) =
      v.zoom * zoomMultiplier s v evt) :
    (zoomMultiplier s v evt = 1 / 2 ↔
      (evt.event.RightUp = true ∨ evt.event.RightDClick = true ∨
        evt.event.ShiftDown = true)) ∧
    (zoomMultiplier s v evt = 2 ↔
      ¬ (evt.event.RightUp = true ∨ evt.event.RightDClick = true ∨
        evt.event.ShiftDown = true)) ∧
    (Release limit defaultZoom s v evt).2.1.zoom = v.zoom * zoomMultiplier s v evt ∧
    zoomMultiplier s v ⟨⟨evt.event.type, evt.event.m_x, true⟩, evt.rect⟩ = 1 / 2 := by
  have hc := (IsDragZooming_eq_false_iff s).mpr hclick
  have hview := Release_view_of_click limit defaultZoom s v evt hc
  rw [hmiddle] at hview
  simp only [Bool.false_eq_true, if_false] at hview
  refine ⟨?_, ?_, ?_, ?_⟩
  · rw [zoomMultiplier_of_click s v evt hc]
    by_cases h : (evt.event.RightUp || evt.event.RightDClick || evt.event.ShiftDown) = true
    · have h2 := h
      simp only [Bool.or_eq_true] at h2
      rw [if_pos h]
      constructor
      · intro _; tauto
      · intro _; trivial
    · have h2 := h
      simp only [Bool.or_eq_true] at h2
      rw [if_neg h]
      constructor
      · intro h3; norm_num at h3
      · intro h3; exact absurd (by tauto) h2
  · rw [zoomMultiplier_of_click s v evt hc]
    by_cases h : (evt.event.RightUp || evt.event.RightDClick || evt.event.ShiftDown) = true
    · have h2 := h
      simp only [Bool.or_eq_true] at h2
      rw [if_pos h]
      constructor
      · intro h3; norm_num at h3
      · intro h3; exact absurd (by tauto) h3
    · have h2 := h
      simp only [Bool.or_eq_true] at h2
      rw [if_neg h]
      constructor
      · intro _ h3; exact h2 (by tauto)
      · intro _; trivial
  · rw [hview]
    simp only [ViewInfo.ZoomBy, ViewInfo.SetZoom]
    exact hunclamped
  · rw [zoomMultiplier_of_click s v _ hc]
    simp [wxMouseEvent.ShiftDown]

/-- The multiplier theorem at a left-button click without shift on pixel 102, on
the model that does not clamp. -/
theorem click_zoom_multiplier_witness :
    zoomMultiplier (ZoomHandle.mk 100 102 ⟨0, 0, 800, 100⟩) (ViewInfo.mk 5 10)
        ⟨⟨.LEFT_UP, 102, false⟩, ⟨0, 0, 800, 100⟩⟩ = 2 ∧
    (Release id 86 (ZoomHandle.mk 100 102 ⟨0, 0, 800, 100⟩) (ViewInfo.mk 5 10)
        ⟨⟨.LEFT_UP, 102, false⟩, ⟨0, 0, 800, 100⟩⟩).2.1.zoom =
      (ViewInfo.mk 5 10).zoom *
        zoomMultiplier (ZoomHandle.mk 100 102 ⟨0, 0, 800, 100⟩) (ViewInfo.mk 5 10)
          ⟨⟨.LEFT_UP, 102, false⟩, ⟨0, 0, 800, 100⟩⟩ ∧
    zoomMultiplier (ZoomHandle.mk 100 102 ⟨0, 0, 800, 100⟩) (ViewInfo.mk 5 10)
        ⟨⟨.LEFT_UP, 102, true⟩, ⟨0, 0, 800, 100⟩⟩ = 1 / 2 :=
  have h := click_zoom_multiplier id 86 (ZoomHandle.mk 100 102 ⟨0, 0, 800, 100⟩)
    (ViewInfo.mk 5 10) ⟨⟨.LEFT_UP, 102, false⟩, ⟨0, 0, 800, 100⟩⟩
    (by norm_num) rfl rfl
  ⟨h.2.1.mpr (by decide), h.2.2.1, h.2.2.2⟩

/-- C7, as the code has it. Drag-zoom shift inversion, with arithmetic taken
exactly: for one drag-classified gesture state over
the pixels `a = min(mZoomStart, mZoomEnd)` and `b = max(mZoomStart, mZoomEnd)`,
a rectangle of width `w > 0` and a viewport with a positive scale, the
multiplier `Release` hands to `ZoomBy` for an event with shift is the reciprocal
of the one for an event without shift, their product is `1`, the scale after the
release is `scale * w / (b - a)` without shift and `scale * (b - a) / w` with
shift (on a model that stores both products unclamped), and the offset after the
release is the same in both cases. -/
theorem drag_zoom_shift_inverts (limit : ℚ → ℚ) (defaultZoom : ℚ)
    (s : ZoomHandle) (v : ViewInfo) (plain shifted : TrackPanelMouseEvent)
    (hscale : 0 < v.zoom) (hwidth : 0 < s.mRect.width)
    (hdrag : 3 < |s.mZoomEnd - s.mZoomStart|)
    (hplain : plain.event.ShiftDown = false)
    (hshifted : shifted.event.ShiftDown = true)
    (hunclampedPlain : limit (v.zoom * zoomMultiplier s v plain) =
      v.zoom * zoomMultiplier s v plain)
    (hunclampedShifted : limit (v.zoom * zoomMultiplier s v shifted) =
      v.zoom * zoomMultiplier s v shifted) :
    zoomMultiplier s v shifted = 1 / zoomMultiplier s v plain ∧
    zoomMultiplier s v shifted * zoomMultiplier s v plain = 1 ∧
    (Release limit defaultZoom s v plain).2.1.zoom =
      v.zoom * ((s.mRect.width : ℚ) /
        (((max s.mZoomStart s.mZoomEnd : ℤ) : ℚ) - (min s.mZoomStart s.mZoomEnd : ℤ))) ∧
    (Release limit defaultZoom s v shifted).2.1.zoom =
      v.zoom * ((((max s.mZoomStart s.mZoomEnd : ℤ) : ℚ) -
        (min s.mZoomStart s.mZoomEnd : ℤ)) / (s.mRect.width : ℚ)) ∧
    (Release limit defaultZoom s v shifted).2.1.h =
      (Release limit defaultZoom s v plain).2.1.h := by
  have hd := (IsDragZooming_eq_true_iff s).mpr hdrag
  have hw : (s.mRect.width : ℚ) ≠ 0 := by
    have : s.mRect.width ≠ 0 := ne_of_gt hwidth
    exact_mod_cast this
  have hmp := zoomMultiplier_of_drag s v plain hscale hd
  have hms := zoomMultiplier_of_drag s v shifted hscale hd
  rw [hplain] at hmp
  rw [hshifted] at hms
  simp only [Bool.false_eq_true, if_false] at hmp
  simp only [if_true] at hms
  have hvp := Release_view_of_drag limit defaultZoom s v plain hd
  have hvs := Release_view_of_drag limit defaultZoom s v shifted hd
  rw [hvp, hvs]
  simp only [ViewInfo.ZoomBy, ViewInfo.SetZoom, hunclampedPlain, hunclampedShifted]
  rw [hmp, hms]
  rw [← max_sub_min_eq_abs] at hdrag ⊢
  generalize max s.mZoomStart s.mZoomEnd = b at hdrag ⊢
  generalize min s.mZoomStart s.mZoomEnd = a at hdrag ⊢
  have hne : (b : ℚ) - (a : ℚ) ≠ 0 := by
    have h4 : b - a ≠ 0 := by omega
    exact_mod_cast h4
  push_cast
  refine ⟨rfl, ?_, rfl, ?_, ?_⟩
  · field_simp
  · field_simp
  · trivial

/-- The inversion theorem at a drag over the pixels 100 to 500 of a rectangle
800 pixels wide, on the model that does not clamp. -/
theorem drag_zoom_shift_inverts_witness :
    zoomMultiplier (ZoomHandle.mk 100 500 ⟨0, 0, 800, 100⟩) (ViewInfo.mk 5 10)
        ⟨⟨.RIGHT_UP, 500, true⟩, ⟨0, 0, 800, 100⟩⟩ *
      zoomMultiplier (ZoomHandle.mk 100 500 ⟨0, 0, 800, 100⟩) (ViewInfo.mk 5 10)
        ⟨⟨.RIGHT_UP, 500, false⟩, ⟨0, 0, 800, 100⟩⟩ = 1 :=
  (drag_zoom_shift_inverts id 86 (ZoomHandle.mk 100 500 ⟨0, 0, 800, 100⟩)
    (ViewInfo.mk 5 10) ⟨⟨.RIGHT_UP, 500, false⟩, ⟨0, 0, 800, 100⟩⟩
    ⟨⟨.RIGHT_UP, 500, true⟩, ⟨0, 0, 800, 100⟩⟩
    (by norm_num) (by norm_num) (by norm_num) rfl rfl rfl rfl).2.1

/-- C7 as stated fails on the binary64 arithmetic of the program.  On the
viewport with offset 5 and scale 10, for the drag-classified pixels 100 and 113
of a rectangle 800 pixels wide, the multiplier with shift times the multiplier
without shift is the `double` just below `1.0`, not `1.0`.  On the viewport with
offset `2^62` and scale 1, for the pixels 100 and 500, the two multipliers are
infinity and `0.0`, and their product is NaN. -/
theorem drag_zoom_shift_product_in_binary64 :
    Double.lt Double.zero (Double.ofInt 10) = true ∧
    (ZoomHandle.mk 100 113 ⟨0, 0, 800, 100⟩).ordered.IsDragZooming = true ∧
    (Binary64.zoomMultiplier (ZoomHandle.mk 100 113 ⟨0, 0, 800, 100⟩)
        (Binary64.ViewInfo.mk (Double.ofInt 5) (Double.ofInt 10))
        ⟨⟨.RIGHT_UP, 113, true⟩, ⟨0, 0, 800, 100⟩⟩).mul
      (Binary64.zoomMultiplier (ZoomHandle.mk 100 113 ⟨0, 0, 800, 100⟩)
        (Binary64.ViewInfo.mk (Double.ofInt 5) (Double.ofInt 10))
        ⟨⟨.RIGHT_UP, 113, false⟩, ⟨0, 0, 800, 100⟩⟩) =
      Double.finite false 9007199254740991 (-53) ∧
    (Binary64.zoomMultiplier (ZoomHandle.mk 100 113 ⟨0, 0, 800, 100⟩)
        (Binary64.ViewInfo.mk (Double.ofInt 5) (Double.ofInt 10))
        ⟨⟨.RIGHT_UP, 113, true⟩, ⟨0, 0, 800, 100⟩⟩).mul
      (Binary64.zoomMultiplier (ZoomHandle.mk 100 113 ⟨0, 0, 800, 100⟩)
        (Binary64.ViewInfo.mk (Double.ofInt 5) (Double.ofInt 10))
        ⟨⟨.RIGHT_UP, 113, false⟩, ⟨0, 0, 800, 100⟩⟩) ≠ Double.one ∧
    Binary64.zoomMultiplier (ZoomHandle.mk 100 500 ⟨0, 0, 800, 100⟩)
        (Binary64.ViewInfo.mk (Double.ofInt (2 ^ 62)) Double.one)
        ⟨⟨.RIGHT_UP, 500, false⟩, ⟨0, 0, 800, 100⟩⟩ = Double.infinite false ∧
    Binary64.zoomMultiplier (ZoomHandle.mk 100 500 ⟨0, 0, 800, 100⟩)
        (Binary64.ViewInfo.mk (Double.ofInt (2 ^ 62)) Double.one)
        ⟨⟨.RIGHT_UP, 500, true⟩, ⟨0, 0, 800, 100⟩⟩ = Double.zero ∧
    (Binary64.zoomMultiplier (ZoomHandle.mk 100 500 ⟨0, 0, 800, 100⟩)
        (Binary64.ViewInfo.mk (Double.ofInt (2 ^ 62)) Double.one)
        ⟨⟨.RIGHT_UP, 500, true⟩, ⟨0, 0, 800, 100⟩⟩).mul
      (Binary64.zoomMultiplier (ZoomHandle.mk 100 500 ⟨0, 0, 800, 100⟩)
        (Binary64.ViewInfo.mk (Double.ofInt (2 ^ 62)) Double.one)
        ⟨⟨.RIGHT_UP, 500, false⟩, ⟨0, 0, 800, 100⟩⟩) = Double.nan := by
  have hdrag1 : (ZoomHandle.mk 100 113 ⟨0, 0, 800, 100⟩).ordered.IsDragZooming = true :=
    (ordered_IsDragZooming _).trans ((IsDragZooming_eq_true_iff _).mpr (by decide))
  have hdrag2 : (ZoomHandle.mk 100 500 ⟨0, 0, 800, 100⟩).ordered.IsDragZooming = true :=
    (ordered_IsDragZooming _).trans ((IsDragZooming_eq_true_iff _).mpr (by decide))
  have hplain1 : Binary64.zoomMultiplier (ZoomHandle.mk 100 113 ⟨0, 0, 800, 100⟩)
      (Binary64.ViewInfo.mk (Double.ofInt 5) (Double.ofInt 10))
      ⟨⟨.RIGHT_UP, 113, false⟩, ⟨0, 0, 800, 100⟩⟩ =
      Double.finite false 8660768514174026 (-47) := by
    simp only [Binary64.zoomMultiplier, hdrag1, if_true]
    decide
  have hshift1 : Binary64.zoomMultiplier (ZoomHandle.mk 100 113 ⟨0, 0, 800, 100⟩)
      (Binary64.ViewInfo.mk (Double.ofInt 5) (Double.ofInt 10))
      ⟨⟨.RIGHT_UP, 113, true⟩, ⟨0, 0, 800, 100⟩⟩ =
      Double.finite false 4683743612465318 (-58) := by
    simp only [Binary64.zoomMultiplier, hdrag1, if_true]
    decide
  have hplain2 : Binary64.zoomMultiplier (ZoomHandle.mk 100 500 ⟨0, 0, 800, 100⟩)
      (Binary64.ViewInfo.mk (Double.ofInt (2 ^ 62)) Double.one)
      ⟨⟨.RIGHT_UP, 500, false⟩, ⟨0, 0, 800, 100⟩⟩ = Double.infinite false := by
    simp only [Binary64.zoomMultiplier, hdrag2, if_true]
    decide
  have hshift2 : Binary64.zoomMultiplier (ZoomHandle.mk 100 500 ⟨0, 0, 800, 100⟩)
      (Binary64.ViewInfo.mk (Double.ofInt (2 ^ 62)) Double.one)
      ⟨⟨.RIGHT_UP, 500, true⟩, ⟨0, 0, 800, 100⟩⟩ = Double.zero := by
    simp only [Binary64.zoomMultiplier, hdrag2, if_true]
    decide
  rw [hplain1, hshift1, hplain2, hshift2]
  exact ⟨by decide, hdrag1, by decide, by decide, rfl, rfl, by decide⟩

/-- C8. Middle-button reset: for every prior viewport, a click-classified
release whose event is a middle-button up or a middle double-click leaves the
scale equal to the default zoom `GetDefaultZoom()` (a scale the model stores as
it is), whatever the prior scale was and whichever of `0.5` and `2.0` the event
selected for `ZoomBy`. -/
theorem middle_button_resets_zoom (limit : ℚ → ℚ) (defaultZoom : ℚ)
    (s : ZoomHandle) (v : ViewInfo) (evt : TrackPanelMouseEvent)
    (hclick : |s.mZoomEnd - s.mZoomStart| ≤ 3)
    (hmiddle : (evt.event.MiddleUp || evt.event.MiddleDClick) = true)
    (hdefault : limit defaultZoom = defaultZoom) :
    (Release limit defaultZoom s v evt).2.1.zoom = defaultZoom := by
  rw [Release_view_of_click limit defaultZoom s v evt
    ((IsDragZooming_eq_false_iff s).mpr hclick), hmiddle]
  simp only [if_true, ViewInfo.SetZoom]
  exact hdefault

/-- The reset theorem at a middle double-click with shift held, on a viewport of
scale 10 and the default zoom 86. -/
theorem middle_button_resets_zoom_witness :
    (Release id 86 (ZoomHandle.mk 100 100 ⟨0, 0, 800, 100⟩) (ViewInfo.mk 5 10)
        ⟨⟨.MIDDLE_DCLICK, 100, true⟩, ⟨0, 0, 800, 100⟩⟩).2.1.zoom = 86 :=
  middle_button_resets_zoom id 86 (ZoomHandle.mk 100 100 ⟨0, 0, 800, 100⟩)
    (ViewInfo.mk 5 10) ⟨⟨.MIDDLE_DCLICK, 100, true⟩, ⟨0, 0, 800, 100⟩⟩
    (by norm_num) rfl rfl

/-! ## The end of a gesture -/

/-- C9. Release always returns to idle: for every gesture state, viewport and
release event, drag-classified or click-classified, the state after `Release`
has `mZoomStart = 0` and `mZoomEnd = 0`, and therefore `IsDragZooming` is
false. -/
theorem release_returns_to_idle (limit : ℚ → ℚ) (defaultZoom : ℚ)
    (s : ZoomHandle) (v : ViewInfo) (evt : TrackPanelMouseEvent) :
    (Release limit defaultZoom s v evt).1.mZoomStart = 0 ∧
    (Release limit defaultZoom s v evt).1.mZoomEnd = 0 ∧
    (Release limit defaultZoom s v evt).1.IsDragZooming = false := by
  refine ⟨rfl, rfl, ?_⟩
  rw [IsDragZooming_eq_false_iff]
  simp [Release]

/-- C10, as the code has it. Cancel keeps the gesture state: for every gesture
state, `Cancel` returns the redraw-all code and leaves `mZoomStart`, `mZoomEnd`
and `mRect` as they were, so `IsDragZooming` after the cancel is what it was
before, and the state is idle after the cancel only if it was idle before. -/
theorem cancel_keeps_gesture_state (s : ZoomHandle) :
    (Cancel s).1 = s ∧ (Cancel s).2 = RefreshCode.RefreshAll ∧
    (Cancel s).1.IsDragZooming = s.IsDragZooming ∧
    (((Cancel s).1.mZoomStart = 0 ∧ (Cancel s).1.mZoomEnd = 0) ↔
      (s.mZoomStart = 0 ∧ s.mZoomEnd = 0)) :=
  ⟨rfl, rfl, rfl, Iff.rfl⟩

/-- C10 as stated fails: after a press on pixel 10 and a drag to pixel 20 of a
rectangle 800 pixels wide, `Cancel` leaves `mZoomStart = 10` and
`mZoomEnd = 20`, and `IsDragZooming` is still true. -/
theorem cancel_does_not_reset :
    (Cancel (Drag (Click ⟨0, 0, ⟨0, 0, 0, 0⟩⟩
        ⟨⟨.RIGHT_DOWN, 10, false⟩, ⟨0, 0, 800, 100⟩⟩).1
        ⟨⟨.MOTION, 20, false⟩, ⟨0, 0, 800, 100⟩⟩).1).1 = ⟨10, 20, ⟨0, 0, 800, 100⟩⟩ ∧
    ¬ ((Cancel (Drag (Click ⟨0, 0, ⟨0, 0, 0, 0⟩⟩
        ⟨⟨.RIGHT_DOWN, 10, false⟩, ⟨0, 0, 800, 100⟩⟩).1
        ⟨⟨.MOTION, 20, false⟩, ⟨0, 0, 800, 100⟩⟩).1).1.mZoomStart = 0 ∧
      (Cancel (Drag (Click ⟨0, 0, ⟨0, 0, 0, 0⟩⟩
        ⟨⟨.RIGHT_DOWN, 10, false⟩, ⟨0, 0, 800, 100⟩⟩).1
        ⟨⟨.MOTION, 20, false⟩, ⟨0, 0, 800, 100⟩⟩).1).1.mZoomEnd = 0) ∧
    (Cancel (Drag (Click ⟨0, 0, ⟨0, 0, 0, 0⟩⟩
        ⟨⟨.RIGHT_DOWN, 10, false⟩, ⟨0, 0, 800, 100⟩⟩).1
        ⟨⟨.MOTION, 20, false⟩, ⟨0, 0, 800, 100⟩⟩).1).1.IsDragZooming = true := by
  refine ⟨by decide, by decide, ?_⟩
  rw [IsDragZooming_eq_true_iff]
  decide

/-! ## Frame of the transitions and the invariant of an active gesture -/

/-- C11. The viewport is touched only on release: for every gesture state,
viewport and event, the transitions `Click`, `Drag` and `Cancel` leave the
viewport (scale and offset) as it was, and a `Cancel` issued right after a
`Release` or after a `Cancel` changes neither the gesture state nor the
viewport. -/
theorem viewport_touched_only_on_release (limit : ℚ → ℚ) (defaultZoom : ℚ)
    (s : ZoomHandle) (v : ViewInfo) (evt : TrackPanelMouseEvent) :
    (dispatch limit defaultZoom s v (Call.Click evt)).2.1 = v ∧
    (dispatch limit defaultZoom s v (Call.Drag evt)).2.1 = v ∧
    (dispatch limit defaultZoom s v Call.Cancel).2.1 = v ∧
    (dispatch limit defaultZoom
        (dispatch limit defaultZoom s v (Call.Release evt)).1
        (dispatch limit defaultZoom s v (Call.Release evt)).2.1 Call.Cancel).1 =
      (dispatch limit defaultZoom s v (Call.Release evt)).1 ∧
    (dispatch limit defaultZoom
        (dispatch limit defaultZoom s v (Call.Release evt)).1
        (dispatch limit defaultZoom s v (Call.Release evt)).2.1 Call.Cancel).2.1 =
      (dispatch limit defaultZoom s v (Call.Release evt)).2.1 ∧
    (dispatch limit defaultZoom
        (dispatch limit defaultZoom s v Call.Cancel).1
        (dispatch limit defaultZoom s v Call.Cancel).2.1 Call.Cancel).1 =
      (dispatch limit defaultZoom s v Call.Cancel).1 ∧
    (dispatch limit defaultZoom
        (dispatch limit defaultZoom s v Call.Cancel).1
        (dispatch limit defaultZoom s v Call.Cancel).2.1 Call.Cancel).2.1 =
      (dispatch limit defaultZoom s v Call.Cancel).2.1 :=
  ⟨rfl, rfl, rfl, rfl, rfl, rfl, rfl⟩

/-- C12. Active-gesture bounds invariant: for every rectangle and every press
at a pixel `p` with `GetLeft ≤ p ≤ GetRight`, after `Click` at `p` followed by
any finite sequence of `Drag` events at arbitrary pixels, the captured rectangle
is still the one of the press and both `mZoomStart` and `mZoomEnd` lie between
`GetLeft` and `GetRight = x + width - 1`. -/
theorem active_gesture_within_bounds (s : ZoomHandle) (press : TrackPanelMouseEvent)
    (drags : List TrackPanelMouseEvent)
    (hpress : (press.event.ButtonDown || press.event.LeftDClick) = true)
    (hleft : press.rect.GetLeft ≤ press.event.m_x)
    (hright : press.event.m_x ≤ press.rect.GetRight) :
    (drags.foldl (fun u e => (Drag u e).1) (Click s press).1).mRect = press.rect ∧
    press.rect.GetLeft ≤
      (drags.foldl (fun u e => (Drag u e).1) (Click s press).1).mZoomStart ∧
    (drags.foldl (fun u e => (Drag u e).1) (Click s press).1).mZoomStart ≤
      press.rect.GetRight ∧
    press.rect.GetLeft ≤
      (drags.foldl (fun u e => (Drag u e).1) (Click s press).1).mZoomEnd ∧
    (drags.foldl (fun u e => (Drag u e).1) (Click s press).1).mZoomEnd ≤
      press.rect.GetRight ∧
    press.rect.GetRight = press.rect.x + press.rect.width - 1 := by
  have hclick : (Click s press).1 = ⟨press.event.m_x, press.event.m_x, press.rect⟩ := by
    simp only [Click, hpress, if_true]
  rw [hclick]
  obtain ⟨hrect, hstart, hlo, hhi⟩ := foldl_Drag_within_bounds drags
    ⟨press.event.m_x, press.event.m_x, press.rect⟩ hleft hright
  rw [hstart]
  exact ⟨hrect, hleft, hright, hlo, hhi, rfl⟩

/-- The invariant at a press on pixel 100 of a rectangle 800 pixels wide
followed by drags to the pixels 900, -50 and 300. -/
theorem active_gesture_within_bounds_witness :
    (0 : ℤ) ≤ (List.foldl (fun u e => (Drag u e).1)
      (Click ⟨0, 0, ⟨0, 0, 0, 0⟩⟩ ⟨⟨.RIGHT_DOWN, 100, false⟩, ⟨0, 0, 800, 100⟩⟩).1
      [⟨⟨.MOTION, 900, false⟩, ⟨0, 0, 800, 100⟩⟩,
       ⟨⟨.MOTION, -50, false⟩, ⟨0, 0, 800, 100⟩⟩,
       ⟨⟨.MOTION, 300, false⟩, ⟨0, 0, 800, 100⟩⟩]).mZoomEnd ∧
    (List.foldl (fun u e => (Drag u e).1)
      (Click ⟨0, 0, ⟨0, 0, 0, 0⟩⟩ ⟨⟨.RIGHT_DOWN, 100, false⟩, ⟨0, 0, 800, 100⟩⟩).1
      [⟨⟨.MOTION, 900, false⟩, ⟨0, 0, 800, 100⟩⟩,
       ⟨⟨.MOTION, -50, false⟩, ⟨0, 0, 800, 100⟩⟩,
       ⟨⟨.MOTION, 300, false⟩, ⟨0, 0, 800, 100⟩⟩]).mZoomEnd ≤ 799 :=
  have h := active_gesture_within_bounds ⟨0, 0, ⟨0, 0, 0, 0⟩⟩
    ⟨⟨.RIGHT_DOWN, 100, false⟩, ⟨0, 0, 800, 100⟩⟩
    [⟨⟨.MOTION, 900, false⟩, ⟨0, 0, 800, 100⟩⟩,
     ⟨⟨.MOTION, -50, false⟩, ⟨0, 0, 800, 100⟩⟩,
     ⟨⟨.MOTION, 300, false⟩, ⟨0, 0, 800, 100⟩⟩]
    rfl (by decide) (by decide)
  ⟨h.2.2.2.1, h.2.2.2.2.1⟩

/-! ## Safety of the drag-zoom arithmetic -/

/-- C15. Overlay rectangle: in the `Cells` pass `DrawExtras` draws a rectangle
if and only if `IsDragZooming` holds; the rectangle it draws, after selecting
the transparent brush and the dashed pen, has `x = min(mZoomStart, mZoomEnd)`,
`width = 1 + |mZoomEnd - mZoomStart|`, `y = -1` and
`height = panelRect.height + 2`; in any other pass nothing is drawn. -/
theorem overlay_rectangle (s : ZoomHandle) (pass : DrawingPass) (panelRect : wxRect) :
    ((∃ r, DCCall.DrawRectangle r ∈ DrawExtras s DrawingPass.Cells panelRect) ↔
      s.IsDragZooming = true) ∧
    DrawExtras s DrawingPass.Cells panelRect =
      (if s.IsDragZooming then
        [DCCall.SetBrush_TRANSPARENT_BRUSH, DCCall.SetPen_BLACK_DASHED_PEN,
          DCCall.DrawRectangle
            { x := min s.mZoomStart s.mZoomEnd, y := -1,
              width := 1 + |s.mZoomEnd - s.mZoomStart|,
              height := panelRect.height + 2 }]
      else []) ∧
    DrawExtras s pass panelRect =
      (if pass = DrawingPass.Cells then DrawExtras s DrawingPass.Cells panelRect
      else []) := by
  refine ⟨?_, ?_, ?_⟩
  · cases hd : s.IsDragZooming <;> simp [DrawExtras, hd]
  · cases hd : s.IsDragZooming <;> simp [DrawExtras, hd]
  · cases pass <;> simp [DrawExtras]

/-- C16, as the code has it. Press transition: for every event that is a
button-down (of any button) or a left double-click, `Click` sets `mZoomStart`
and `mZoomEnd` to the pixel of the event and `mRect` to the rectangle of the
event, whatever the previous gesture state was; for every other event, a right
or middle double-click included, it leaves the gesture state as it was; in both
cases it returns `RefreshNone`. -/
theorem press_records_pixel (s : ZoomHandle) (evt : TrackPanelMouseEvent) :
    (Click s evt).1 =
      (if evt.event.type ∈ [wxMouseEventType.LEFT_DOWN, wxMouseEventType.MIDDLE_DOWN,
          wxMouseEventType.RIGHT_DOWN, wxMouseEventType.AUX1_DOWN,
          wxMouseEventType.AUX2_DOWN, wxMouseEventType.LEFT_DCLICK]
      then { mZoomStart := evt.event.m_x, mZoomEnd := evt.event.m_x, mRect := evt.rect }
      else s) ∧
    (Click s evt).2 = RefreshCode.RefreshNone := by
  refine ⟨?_, rfl⟩
  obtain ⟨⟨type, x, shift⟩, rect⟩ := evt
  cases type <;> simp [Click, wxMouseEvent.ButtonDown, wxMouseEvent.LeftDClick]

/-- C16 as stated fails: a right double-click is a double-click, yet `Click`
with a right double-click on pixel 50 leaves the previous gesture state
`(7, 9)` and its rectangle untouched, so `mZoomStart` is not the pixel of the
event. -/
theorem right_double_click_is_not_recorded :
    (Click ⟨7, 9, ⟨0, 0, 800, 100⟩⟩
        ⟨⟨.RIGHT_DCLICK, 50, false⟩, ⟨1, 1, 700, 90⟩⟩).1 = ⟨7, 9, ⟨0, 0, 800, 100⟩⟩ ∧
    (Click ⟨7, 9, ⟨0, 0, 800, 100⟩⟩
        ⟨⟨.RIGHT_DCLICK, 50, false⟩, ⟨1, 1, 700, 90⟩⟩).1.mZoomStart ≠ 50 ∧
    (Click ⟨7, 9, ⟨0, 0, 800, 100⟩⟩
        ⟨⟨.RIGHT_DCLICK, 50, false⟩, ⟨1, 1, 700, 90⟩⟩).1.mRect ≠ ⟨1, 1, 700, 90⟩ := by
  decide

/-- C17. Classification predicate: `IsDragZooming` is true exactly when
`|mZoomEnd - mZoomStart| > 3`; it gives the same answer with the two pixels
exchanged, it is false in the idle state `(0, 0)`, and `Release` takes the
drag-zoom branch exactly when the predicate holds on the stored pair: the swap
does not change the answer, and the viewport after `Release` is the one of the
drag path when the predicate holds and the one of the click path otherwise. -/
theorem classification_predicate (limit : ℚ → ℚ) (defaultZoom : ℚ)
    (s : ZoomHandle) (v : ViewInfo) (evt : TrackPanelMouseEvent) :
    (s.IsDragZooming = true ↔ |s.mZoomEnd - s.mZoomStart| > 3) ∧
    (ZoomHandle.mk s.mZoomEnd s.mZoomStart s.mRect).IsDragZooming = s.IsDragZooming ∧
    (ZoomHandle.mk 0 0 s.mRect).IsDragZooming = false ∧
    s.ordered.IsDragZooming = s.IsDragZooming ∧
    (Release limit defaultZoom s v evt).2.1 =
      (if s.IsDragZooming then
        { h := v.PositionToTime (min s.mZoomStart s.mZoomEnd) s.mRect.x,
          zoom := limit (v.zoom * zoomMultiplier s v evt) }
      else
        { h := v.h + (v.PositionToTime evt.event.m_x s.mRect.x -
                (v.h + ((evt.event.m_x - s.mRect.x : ℤ) : ℚ) /
                  (if evt.event.MiddleUp || evt.event.MiddleDClick
                    then limit defaultZoom
                    else limit (v.zoom * zoomMultiplier s v evt)))),
          zoom := if evt.event.MiddleUp || evt.event.MiddleDClick
                    then limit defaultZoom
                    else limit (v.zoom * zoomMultiplier s v evt) }) := by
  refine ⟨IsDragZooming_eq_true_iff s, ?_, ?_, ordered_IsDragZooming s, ?_⟩
  · simp [IsDragZooming, abs_sub_comm s.mZoomStart s.mZoomEnd]
  · simp [IsDragZooming, DragThreshold]
  · cases hd : s.IsDragZooming with
    | true =>
      rw [Release_view_of_drag limit defaultZoom s v evt hd]
      simp [ViewInfo.ZoomBy, ViewInfo.SetZoom]
    | false =>
      rw [Release_view_of_click limit defaultZoom s v evt hd]
      cases hm : (evt.event.MiddleUp || evt.event.MiddleDClick) <;>
        simp [ViewInfo.ZoomBy, ViewInfo.SetZoom, ViewInfo.PositionToTime, hm]

/-- C18. Drag transition: for every gesture state whose rectangle satisfies
`GetLeft ≤ GetRight` and every drag event at a pixel `x`, `Drag` sets
`mZoomEnd` to `GetLeft` if `x < GetLeft`, to `GetRight` if `x > GetRight` and to
`x` otherwise, which is `x` clamped to `[GetLeft, GetRight]`; it leaves
`mZoomStart` and `mRect` unchanged and returns `RefreshAll`, whether or not the
result counts as a drag zoom. -/
theorem drag_clamps_end_pixel (s : ZoomHandle) (evt : TrackPanelMouseEvent)
    (hbounds : s.mRect.GetLeft ≤ s.mRect.GetRight) :
    (Drag s evt).1.mZoomEnd =
      (if evt.event.m_x < s.mRect.GetLeft then s.mRect.GetLeft
      else if evt.event.m_x > s.mRect.GetRight then s.mRect.GetRight
      else evt.event.m_x) ∧
    (Drag s evt).1.mZoomEnd = max s.mRect.GetLeft (min evt.event.m_x s.mRect.GetRight) ∧
    (Drag s evt).1.mZoomStart = s.mZoomStart ∧
    (Drag s evt).1.mRect = s.mRect ∧
    (Drag s evt).2 = RefreshCode.RefreshAll := by
  by_cases hlt : evt.event.m_x < s.mRect.GetLeft
  · have hclamp : max s.mRect.GetLeft (min evt.event.m_x s.mRect.GetRight) =
        s.mRect.GetLeft := by
      rw [min_eq_left (le_trans (le_of_lt hlt) hbounds), max_eq_left (le_of_lt hlt)]
    simp only [Drag, hlt, if_true, hclamp, and_self]
  · by_cases hgt : evt.event.m_x > s.mRect.GetRight
    · have hclamp : max s.mRect.GetLeft (min evt.event.m_x s.mRect.GetRight) =
          s.mRect.GetRight := by
        rw [min_eq_right (le_of_lt hgt), max_eq_right hbounds]
      simp only [Drag, hlt, hgt, if_true, if_false, hclamp, and_self]
    · have hclamp : max s.mRect.GetLeft (min evt.event.m_x s.mRect.GetRight) =
          evt.event.m_x := by
        rw [min_eq_left (not_lt.mp hgt), max_eq_right (not_lt.mp hlt)]
      simp only [Drag, hlt, hgt, if_false, hclamp, and_self]

/-- The drag theorem at a drag to pixel 900 on a rectangle with the columns 0 to
799: the end pixel becomes 799. -/
theorem drag_clamps_end_pixel_witness :
    (Drag (ZoomHandle.mk 100 100 ⟨0, 0, 800, 100⟩)
        ⟨⟨.MOTION, 900, false⟩, ⟨0, 0, 800, 100⟩⟩).1.mZoomEnd =
      max (wxRect.mk 0 0 800 100).GetLeft (min 900 (wxRect.mk 0 0 800 100).GetRight) :=
  (drag_clamps_end_pixel (ZoomHandle.mk 100 100 ⟨0, 0, 800, 100⟩)
    ⟨⟨.MOTION, 900, false⟩, ⟨0, 0, 800, 100⟩⟩ (by decide)).2.1

/-! ## Click-zoom: independence of the recorded pixels and the round trip -/

/-- C19. Click-zoom ignores the recorded pixels: for two gesture states that are
both click-classified (`|mZoomEnd - mZoomStart| ≤ 3`) and whose rectangles have
the same `x`, the same viewport and the same release event, `Release` leaves the
same viewport; the recorded `mZoomStart` and `mZoomEnd` play no part, the anchor
is the pixel of the release event. -/
theorem click_zoom_ignores_recorded_pixels (limit : ℚ → ℚ) (defaultZoom : ℚ)
    (s1 s2 : ZoomHandle) (v : ViewInfo) (evt : TrackPanelMouseEvent)
    (hclick1 : |s1.mZoomEnd - s1.mZoomStart| ≤ 3)
    (hclick2 : |s2.mZoomEnd - s2.mZoomStart| ≤ 3)
    (hedge : s1.mRect.x = s2.mRect.x) :
    (Release limit defaultZoom s1 v evt).2.1 =
      (Release limit defaultZoom s2 v evt).2.1 := by
  have h1 := (IsDragZooming_eq_false_iff s1).mpr hclick1
  have h2 := (IsDragZooming_eq_false_iff s2).mpr hclick2
  rw [Release_view_of_click limit defaultZoom s1 v evt h1,
    Release_view_of_click limit defaultZoom s2 v evt h2,
    zoomMultiplier_of_click s1 v evt h1, zoomMultiplier_of_click s2 v evt h2, hedge]

/-- The independence theorem at the recorded pairs `(100, 102)` and `(7, 4)`. -/
theorem click_zoom_ignores_recorded_pixels_witness :
    (Release id 86 (ZoomHandle.mk 100 102 ⟨0, 0, 800, 100⟩) (ViewInfo.mk 5 10)
        ⟨⟨.LEFT_UP, 102, false⟩, ⟨0, 0, 800, 100⟩⟩).2.1 =
      (Release id 86 (ZoomHandle.mk 7 4 ⟨0, 20, 300, 50⟩) (ViewInfo.mk 5 10)
        ⟨⟨.LEFT_UP, 102, false⟩, ⟨0, 0, 800, 100⟩⟩).2.1 :=
  click_zoom_ignores_recorded_pixels id 86 (ZoomHandle.mk 100 102 ⟨0, 0, 800, 100⟩)
    (ZoomHandle.mk 7 4 ⟨0, 20, 300, 50⟩) (ViewInfo.mk 5 10)
    ⟨⟨.LEFT_UP, 102, false⟩, ⟨0, 0, 800, 100⟩⟩ (by decide) (by decide) rfl

/-- C20. Zoom-in / zoom-out round trip: for every viewport with a positive
scale, click-classified gesture states with the same left edge, and two release
events at the same pixel, neither of them a middle-button up or double-click,
one zooming in (multiplier `2.0`) and one zooming out (multiplier `0.5`): the
zoom-in followed by the zoom-out, and the zoom-out followed by the zoom-in, both
give back the original scale and the original offset, on a model that stores the
scales `2 * zoom`, `zoom / 2` and `zoom` unclamped. -/
theorem zoom_in_out_round_trip (limit : ℚ → ℚ) (defaultZoom : ℚ)
    (s1 s2 : ZoomHandle) (v : ViewInfo) (zoomIn zoomOut : TrackPanelMouseEvent)
    (hscale : 0 < v.zoom)
    (hclick1 : |s1.mZoomEnd - s1.mZoomStart| ≤ 3)
    (hclick2 : |s2.mZoomEnd - s2.mZoomStart| ≤ 3)
    (hedge : s2.mRect.x = s1.mRect.x)
    (hpixel : zoomOut.event.m_x = zoomIn.event.m_x)
    (hmiddleIn : (zoomIn.event.MiddleUp || zoomIn.event.MiddleDClick) = false)
    (hmiddleOut : (zoomOut.event.MiddleUp || zoomOut.event.MiddleDClick) = false)
    (hin : (zoomIn.event.RightUp || zoomIn.event.RightDClick ||
      zoomIn.event.ShiftDown) = false)
    (hout : (zoomOut.event.RightUp || zoomOut.event.RightDClick ||
      zoomOut.event.ShiftDown) = true)
    (hdouble : limit (v.zoom * 2) = v.zoom * 2)
    (hhalf : limit (v.zoom * (1 / 2)) = v.zoom * (1 / 2))
    (hsame : limit v.zoom = v.zoom) :
    zoomMultiplier s1 v zoomIn = 2 ∧ zoomMultiplier s1 v zoomOut = 1 / 2 ∧
    (Release limit defaultZoom s2
        (Release limit defaultZoom s1 v zoomIn).2.1 zoomOut).2.1 = v ∧
    (Release limit defaultZoom s2
        (Release limit defaultZoom s1 v zoomOut).2.1 zoomIn).2.1 = v := by
  have h1 := (IsDragZooming_eq_false_iff s1).mpr hclick1
  have h2 := (IsDragZooming_eq_false_iff s2).mpr hclick2
  have hz : v.zoom ≠ 0 := ne_of_gt hscale
  have hback1 : v.zoom * 2 * (1 / 2) = v.zoom := by ring
  have hback2 : v.zoom * (1 / 2) * 2 = v.zoom := by ring
  refine ⟨?_, ?_, ?_, ?_⟩
  · rw [zoomMultiplier_of_click s1 v zoomIn h1, hin]
    simp
  · rw [zoomMultiplier_of_click s1 v zoomOut h1, hout]
    simp
  · rw [Release_view_of_click limit defaultZoom s2 _ zoomOut h2,
      Release_view_of_click limit defaultZoom s1 v zoomIn h1,
      zoomMultiplier_of_click s2 _ zoomOut h2, zoomMultiplier_of_click s1 v zoomIn h1,
      hin, hout, hmiddleIn, hmiddleOut, hedge, hpixel]
    simp only [Bool.false_eq_true, if_false, if_true, ViewInfo.ZoomBy, ViewInfo.SetZoom,
      ViewInfo.PositionToTime, hdouble, hback1, hsame]
    obtain ⟨h, zoom⟩ := v
    simp only [ViewInfo.mk.injEq, and_true]
    ring
  · rw [Release_view_of_click limit defaultZoom s2 _ zoomIn h2,
      Release_view_of_click limit defaultZoom s1 v zoomOut h1,
      zoomMultiplier_of_click s2 _ zoomIn h2, zoomMultiplier_of_click s1 v zoomOut h1,
      hin, hout, hmiddleIn, hmiddleOut, hedge, hpixel]
    simp only [Bool.false_eq_true, if_false, if_true, ViewInfo.ZoomBy, ViewInfo.SetZoom,
      ViewInfo.PositionToTime, hhalf, hback2, hsame]
    obtain ⟨h, zoom⟩ := v
    simp only [ViewInfo.mk.injEq, and_true]
    ring

/-- The round trip at a left-button click and a right-button click on pixel 102
of a viewport with offset 5 and scale 10, on the model that does not clamp. -/
theorem zoom_in_out_round_trip_witness :
    (Release id 86 (ZoomHandle.mk 0 0 ⟨0, 0, 800, 100⟩)
        (Release id 86 (ZoomHandle.mk 100 102 ⟨0, 0, 800, 100⟩) (ViewInfo.mk 5 10)
          ⟨⟨.LEFT_UP, 102, false⟩, ⟨0, 0, 800, 100⟩⟩).2.1
        ⟨⟨.RIGHT_UP, 102, false⟩, ⟨0, 0, 800, 100⟩⟩).2.1 = ViewInfo.mk 5 10 ∧
    (Release id 86 (ZoomHandle.mk 0 0 ⟨0, 0, 800, 100⟩)
        (Release id 86 (ZoomHandle.mk 100 102 ⟨0, 0, 800, 100⟩) (ViewInfo.mk 5 10)
          ⟨⟨.RIGHT_UP, 102, false⟩, ⟨0, 0, 800, 100⟩⟩).2.1
        ⟨⟨.LEFT_UP, 102, false⟩, ⟨0, 0, 800, 100⟩⟩).2.1 = ViewInfo.mk 5 10 :=
  (zoom_in_out_round_trip id 86 (ZoomHandle.mk 100 102 ⟨0, 0, 800, 100⟩)
    (ZoomHandle.mk 0 0 ⟨0, 0, 800, 100⟩) (ViewInfo.mk 5 10)
    ⟨⟨.LEFT_UP, 102, false⟩, ⟨0, 0, 800, 100⟩⟩
    ⟨⟨.RIGHT_UP, 102, false⟩, ⟨0, 0, 800, 100⟩⟩
    (by norm_num) (by decide) (by decide) rfl rfl rfl rfl rfl rfl rfl rfl rfl).2.2

end ZoomHandle

end Audacity
